import Mathlib

set_option maxHeartbeats 1000000
set_option maxRecDepth 100000

/-!
Verification of the adaptive size-targeting compression engine and the batch
orchestration layer of the image_converter repository, as a shallow embedding.

Modelling conventions:
* Machine integers are modelled as `Nat`; the `u32` pixel-count multiplications
  that can overflow are modelled with an explicit `% 2 ^ 32` wrap (release-mode
  Rust semantics).
* The external codec collaborators (image crate JPEG/PNG encoders, webp crate,
  pdfium) are oracles: a `Bitmap` carries the byte buffers each fixed-parameter
  encode primitive would return, and pdf loading/rendering results live on the
  `SrcFile` record.  The claims quantify over all oracle behaviours.
* `f32` arithmetic: the JPEG quality decay `(quality as f32 * 0.8) as u8`
  equals `4 * q / 5` on the whole quality range the program uses (initial
  qualities 40/60/80 and their decays, all below 128, where the f32
  computation is exact after rounding); the PNG size estimator's
  `(base_size as f32 * 0.7) as usize` is modelled bit-exactly as IEEE-754
  binary32 round-to-nearest-even on dyadic rationals (`f32RoundDyadic`);
  the WebP quality and the PNG scale factor are modelled as exact rational /
  real arithmetic.
* The batch orchestrator is modelled as a sequential fold in enumeration
  order.  The two counters are only ever incremented atomically and the final
  snapshot is built after all workers join, so the final counts and the final
  snapshot are independent of the interleaving; the serial model fixes one.
* File-system writes are explicit state passing on `FS`; `fs::write` success
  is an oracle `writeOk` on the output name.
-/

/-- Resampling filters of the external imaging library
(`image::imageops::FilterType`), as selected in `turbo_encode_png_compressed`. -/
inductive FilterType
  | Lanczos3
  | CatmullRom
  | Triangle
deriving DecidableEq

/-- Output format enumeration (`src/utils/config.rs`, `OutputFormat`). -/
inductive OutputFormat
  | Jpeg
  | PngCompressed
  | PngOriginal
  | WebPLossy
  | WebPLossless
deriving DecidableEq

/-- `OutputFormat::extension` (`src/utils/config.rs` lines 356-364). -/
def OutputFormat.extension : OutputFormat → String
  | .Jpeg => "jpg"
  | .PngCompressed | .PngOriginal => "png"
  | .WebPLossy | .WebPLossless => "webp"

/-- The typed errors the engine can surface.  The source uses `anyhow` errors;
each distinct failure site is modelled as one constructor. -/
inductive ConvError
  | targetTooSmall
  | writeError
  | decodeError
  | pdfLoadError
  | noRenderablePages
  | notADirectory
  | watermarkError
deriving DecidableEq

/-- A decoded in-memory bitmap, bundled with the outputs of the external codec
collaborators on it: `jpegEnc q` is the byte buffer the image crate JPEG
encoder produces at quality `q`, `webpEnc q` the webp crate lossy encode at
quality `q`, `webpLosslessEnc` the webp lossless encode, and `pngFastEnc`
the image crate PNG encode at `CompressionType::Fast` / `FilterType::NoFilter`.
The claims quantify over all bitmaps, hence over all collaborator
behaviours. -/
structure Bitmap where
  width : ℕ
  height : ℕ
  jpegEnc : ℕ → List ℕ
  webpEnc : ℚ → List ℕ
  webpLosslessEnc : List ℕ
  pngFastEnc : List ℕ

/-- `turbo_encode_jpeg` (`src/converter/turbo_encoder.rs` lines 46-88): encode
at the given quality, and if a target is given and the result is too large
while `quality > 10`, recurse at `(quality as f32 * 0.8) as u8 = 4 * q / 5`.
The memory pool only recycles buffers and does not affect the returned bytes,
so it is not modelled. -/
def turbo_encode_jpeg : Bitmap → ℕ → Option ℕ → List ℕ
  | img, quality, none => img.jpegEnc quality
  | img, quality, some max_size =>
      if h : max_size < (img.jpegEnc quality).length ∧ 10 < quality then
        turbo_encode_jpeg img (4 * quality / 5) (some max_size)
      else
        img.jpegEnc quality
termination_by _ quality _ => quality
decreasing_by
  omega

/-- `turbo_encode_jpeg_adaptive` (`src/converter/image_converter.rs` lines
48-63): pick the initial quality from the target-size tier and delegate to
`turbo_encode_jpeg` with the size cap.  (The `_complexity_factor` binding in
the source is unused and not modelled.) -/
def turbo_encode_jpeg_adaptive (img : Bitmap) (target_bytes : ℕ) : List ℕ :=
  let initial_quality := if target_bytes < 50000 then 40
    else if target_bytes < 200000 then 60
    else 80
  turbo_encode_jpeg img initial_quality (some target_bytes)

/-- `turbo_encode_png_fast` (`src/converter/turbo_encoder.rs` lines 91-122):
a single fast, no-extra-compression PNG encode of the bitmap, i.e. the PNG
codec collaborator output. -/
def turbo_encode_png_fast (img : Bitmap) : List ℕ :=
  img.pngFastEnc

/-- Fuel-driven bit length: `bitLenAux fuel n` halves `n` until it reaches 0,
consuming one unit of fuel per step.  Structural recursion on the fuel keeps
the function kernel-reducible, so concrete estimator values can be settled by
`decide`. -/
def bitLenAux : ℕ → ℕ → ℕ
  | 0, _ => 0
  | fuel + 1, n => if n = 0 then 0 else bitLenAux fuel (n / 2) + 1

/-- Number of binary digits of `n` (0 for 0); the fuel `n` always suffices. -/
def bitLen (n : ℕ) : ℕ := bitLenAux n n

/-- IEEE-754 binary32 rounding of the dyadic rational `M * 2 ^ E` (`M`, `E`
an unnormalised mantissa/exponent pair): when the mantissa has more than 24
significant bits, the excess `s` low bits are dropped with round-to-nearest,
ties-to-even — the f32 rounding Rust applies in `as f32` casts and in f32
multiplication.  This is value-exact on the whole range the estimator
produces (positive, far from overflow and subnormals); a mantissa carry up to
`2 ^ 24` needs no renormalisation because only the denoted value is used. -/
def f32RoundDyadic (M : ℕ) (E : ℤ) : ℕ × ℤ :=
  if bitLen M ≤ 24 then (M, E)
  else
    let s : ℕ := bitLen M - 24
    let q : ℕ := M / 2 ^ s
    let r : ℕ := M % 2 ^ s
    let q2 : ℕ := if r < 2 ^ (s - 1) then q
      else if 2 ^ (s - 1) < r then q + 1
      else q + q % 2
    (q2, E + s)

/-- Truncation of the nonnegative dyadic `M * 2 ^ E` toward zero, the
semantics of Rust's `as usize` cast on a nonnegative in-range f32 value. -/
def dyadicTruncNat (M : ℕ) (E : ℤ) : ℕ :=
  match E with
  | .ofNat k => M * 2 ^ k
  | .negSucc k => M / 2 ^ (k + 1)

/-- The rational value denoted by the dyadic pair `(M, E)` (specification
layer only; the executable pipeline works on the pairs). -/
def dval (M : ℕ) (E : ℤ) : ℚ := (M : ℚ) * (2 : ℚ) ^ E

/-- `estimate_png_size` (`src/converter/turbo_encoder.rs` lines 169-176):
`pixels = width * height` is a `u32` multiplication (wraps at `2 ^ 32`),
`base_size = pixels * 3`, and the result is
`(base_size as f32 * 0.7) as usize + 1024`.  The float step is modelled
bit-exactly: `base_size as f32` is the binary32 rounding of `base_size`
(`f32RoundDyadic base_size 0`); the literal `0.7f32` is the binary32 value
`11744051 * 2 ^ (-24)` (the nearest binary32 to 7/10, see
`seven_tenths_half_ulp`); the f32 multiplication rounds the exact dyadic
product of its operands; and the `as usize` cast truncates toward zero
(`dyadicTruncNat`). -/
def estimate_png_size (width height : ℕ) : ℕ :=
  let pixels : ℕ := width * height % 2 ^ 32
  let base_size : ℕ := pixels * 3
  let b := f32RoundDyadic base_size 0
  let p := f32RoundDyadic (b.1 * 11744051) (b.2 - 24)
  dyadicTruncNat p.1 p.2 + 1024

/-- The scale factor computed by `turbo_encode_png_compressed`
(`src/converter/turbo_encoder.rs` line 140):
`((target_bytes as f32 / quick_size as f32).sqrt() * 0.95).min(1.0)`. -/
noncomputable def pngScaleFactor (target_bytes quick_size : ℕ) : ℝ :=
  min (Real.sqrt ((target_bytes : ℝ) / (quick_size : ℝ)) * 0.95) 1

open Classical in
/-- `turbo_encode_png_compressed` (`src/converter/turbo_encoder.rs` lines
125-166).  The external `resize_exact` primitive of the imaging library is
passed in as a collaborator function. -/
noncomputable def turbo_encode_png_compressed
    (resize_exact : Bitmap → ℕ → ℕ → FilterType → Bitmap)
    (img : Bitmap) (target_bytes : ℕ) : Except ConvError (List ℕ) :=
  let quick_size := estimate_png_size img.width img.height
  if quick_size ≤ target_bytes then
    .ok (turbo_encode_png_fast img)
  else
    let scale_factor := pngScaleFactor target_bytes quick_size
    if scale_factor < 0.1 then
      .error .targetTooSmall
    else
      let new_width := (max (round ((img.width : ℝ) * scale_factor)) 32).toNat
      let new_height := (max (round ((img.height : ℝ) * scale_factor)) 32).toNat
      let filter := if 0.8 < scale_factor then FilterType.Lanczos3
        else if 0.5 < scale_factor then FilterType.CatmullRom
        else FilterType.Triangle
      .ok (turbo_encode_png_fast (resize_exact img new_width new_height filter))

/-- `encode_webp_lossy` (`src/converter/webp_encoder.rs` lines 8-42): encode
at the given (floating point, modelled as rational) quality; if a target is
given and the result is too large while `quality > 10.0`, recurse at
`quality * 0.8`. -/
def encode_webp_lossy : Bitmap → ℚ → Option ℕ → List ℕ
  | img, quality, none => img.webpEnc quality
  | img, quality, some max_size =>
      if h : max_size < (img.webpEnc quality).length ∧ 10 < quality then
        encode_webp_lossy img (quality * (4 / 5)) (some max_size)
      else
        img.webpEnc quality
termination_by _ quality _ => ⌈quality⌉₊
decreasing_by
  have hq : (10 : ℚ) < quality := h.2
  have hc : 10 < ⌈quality⌉₊ := Nat.lt_ceil.mpr (by exact_mod_cast hq)
  have h1 : quality ≤ (⌈quality⌉₊ : ℚ) := Nat.le_ceil quality
  have hc1 : 1 ≤ ⌈quality⌉₊ := by omega
  have hcast : ((⌈quality⌉₊ - 1 : ℕ) : ℚ) = (⌈quality⌉₊ : ℚ) - 1 := by
    rw [Nat.cast_sub hc1, Nat.cast_one]
  have hc11 : (11 : ℚ) ≤ (⌈quality⌉₊ : ℚ) := by exact_mod_cast hc
  have h2 : quality * (4 / 5) ≤ ((⌈quality⌉₊ - 1 : ℕ) : ℚ) := by
    rw [hcast]; nlinarith [hc11, h1]
  calc ⌈quality * (4 / 5)⌉₊ ≤ ⌈quality⌉₊ - 1 := Nat.ceil_le.mpr h2
    _ < ⌈quality⌉₊ := by omega

/-- `encode_webp_lossless` (`src/converter/webp_encoder.rs` lines 45-64):
a single deterministic lossless webp encode. -/
def encode_webp_lossless (img : Bitmap) : List ℕ :=
  img.webpLosslessEnc

/-- `encode_webp_smart` (`src/converter/webp_encoder.rs` lines 67-97).
`pixels` is a `u32` multiplication, so it wraps at `2 ^ 32`.  The lossless
encode in the source is fallible but its only failure is inside the webp
collaborator, modelled as total; the `if let Ok` always matches. -/
def encode_webp_smart (img : Bitmap) (target_size_bytes : ℕ) (prefer_quality : Bool) :
    List ℕ :=
  let pixels := img.width * img.height % 2 ^ 32
  let initial_quality : ℚ := if target_size_bytes < 50000 then 50
    else if target_size_bytes < 200000 then 75
    else 85
  let lossy_result := encode_webp_lossy img initial_quality (some target_size_bytes)
  if prefer_quality = true ∨ pixels < 500000 then
    let lossless_result := encode_webp_lossless img
    if lossless_result.length ≤ target_size_bytes * 12 / 10 then
      lossless_result
    else
      lossy_result
  else
    lossy_result

/-- The per-format encode dispatch inside `compress_and_save`
(`src/converter/image_converter.rs` lines 18-39), with
`target_bytes = target_kb * 1024` already applied by the caller. -/
noncomputable def encodeForFormat (resize_exact : Bitmap → ℕ → ℕ → FilterType → Bitmap) :
    OutputFormat → Bitmap → ℕ → Except ConvError (List ℕ)
  | .Jpeg, img, target_bytes => .ok (turbo_encode_jpeg_adaptive img target_bytes)
  | .PngCompressed, img, target_bytes =>
      turbo_encode_png_compressed resize_exact img target_bytes
  | .PngOriginal, img, _ => .ok (turbo_encode_png_fast img)
  | .WebPLossy, img, target_bytes => .ok (encode_webp_smart img target_bytes false)
  | .WebPLossless, img, _ => .ok (encode_webp_lossless img)

/-- The file-system state: the written output files (most recent first) and a
write-success oracle for `std::fs::write`. -/
structure FS where
  files : List (String × List ℕ)
  writeOk : String → Bool

/-- `compress_and_save` (`src/converter/image_converter.rs` lines 10-45):
encode according to the format, then write the bytes to the output path.
Returns the outcome together with the (possibly updated) file system; on any
error the file system is returned as it was. -/
noncomputable def compress_and_save (resize_exact : Bitmap → ℕ → ℕ → FilterType → Bitmap)
    (img : Bitmap) (output_path : String) (target_kb : ℕ) (fmt : OutputFormat)
    (fs : FS) : Except ConvError Unit × FS :=
  match encodeForFormat resize_exact fmt img (target_kb * 1024) with
  | .error e => (.error e, fs)
  | .ok compressed_data =>
      if fs.writeOk output_path then
        (.ok (), ⟨(output_path, compressed_data) :: fs.files, fs.writeOk⟩)
      else
        (.error .writeError, fs)

/-- The watermark compositing collaborator (out of scope per the spec): `none`
models watermarking disabled, `some apply` the combined text/image watermark
application, which may fail. -/
abbrev Watermark := Option (Bitmap → Except ConvError Bitmap)

/-- `compress_and_save_with_watermark` (`src/converter/image_converter.rs`
lines 82-105): apply the watermark collaborator first (if enabled), then run
`compress_and_save` on the processed image. -/
noncomputable def compress_and_save_with_watermark
    (resize_exact : Bitmap → ℕ → ℕ → FilterType → Bitmap) (wm : Watermark)
    (img : Bitmap) (output_path : String) (target_kb : ℕ) (fmt : OutputFormat)
    (fs : FS) : Except ConvError Unit × FS :=
  match wm with
  | none => compress_and_save resize_exact img output_path target_kb fmt fs
  | some apply =>
      match apply img with
      | .error e => (.error e, fs)
      | .ok processed => compress_and_save resize_exact processed output_path target_kb fmt fs

/-- A source path: base file stem and optional extension (directories are
dropped by the output-naming code, which only uses `file_stem`/`file_name`). -/
structure SrcPath where
  stem : String
  ext : Option String
deriving DecidableEq

/-- The displayed form of a path (`to_string_lossy`). -/
def SrcPath.render (p : SrcPath) : String :=
  match p.ext with
  | some e => p.stem ++ "." ++ e
  | none => p.stem

/-- A source file together with the external collaborator results on it:
`decodeResult` is `image::open` (for image files), and `pdfLoad` is the pdfium
document load, carrying each page's render outcome (for PDF files).  Both
pdfium entry points (`get_pdf_page_count`, `convert_pdf_to_images`) see the
same load result, so they are deterministic and mutually consistent. -/
structure SrcFile where
  path : SrcPath
  decodeResult : Option Bitmap
  pdfLoad : Option (List (Option Bitmap))

/-- The check `path.extension().map_or(false, |e| e == "pdf")` used in
`batch_processor.rs`. -/
def SrcFile.isPdf (f : SrcFile) : Bool :=
  f.path.ext == some "pdf"

/-- `get_pdf_page_count` (`src/converter/pdf_converter.rs` lines 56-68):
load the document and return its page count. -/
def get_pdf_page_count (f : SrcFile) : Except ConvError ℕ :=
  match f.pdfLoad with
  | none => .error .pdfLoadError
  | some pages => .ok pages.length

/-- `convert_pdf_to_images` (`src/converter/pdf_converter.rs` lines 7-53):
load the document, render each page, silently skipping pages that fail to
render, and fail if no page rendered. -/
def convert_pdf_to_images (f : SrcFile) : Except ConvError (List Bitmap) :=
  match f.pdfLoad with
  | none => .error .pdfLoadError
  | some pages =>
      let images := pages.filterMap id
      if images.isEmpty then .error .noRenderablePages else .ok images

/-- The per-file unit count used both by the pre-scan
(`batch_processor.rs` lines 72-87) and by the failure accounting
(`batch_processor.rs` lines 224-229): PDF files count as
`get_pdf_page_count(..).unwrap_or(1)`, other files as 1. -/
def unitCount (f : SrcFile) : ℕ :=
  if f.isPdf then
    match get_pdf_page_count f with
    | .ok count => count
    | .error _ => 1
  else 1

/-- The pre-scan total (`batch_processor.rs` lines 72-87). -/
def totalTasks (files : List SrcFile) : ℕ :=
  (files.map unitCount).sum

/-- One entry met by the recursive `WalkDir` traversal, in walk order, with
its `file_type().is_file()` flag. -/
structure DirEntry where
  file : SrcFile
  isFile : Bool

/-- `get_files_in_directory` (`src/utils/file_utils.rs` lines 7-18): fail if
the path is not a directory, otherwise keep exactly the file-type entries of
the recursive walk, in walk order.  No extension filter, no sort. -/
def get_files_in_directory : Option (List DirEntry) → Except ConvError (List SrcFile)
  | none => .error .notADirectory
  | some entries => .ok ((entries.filter fun e => e.isFile).map fun e => e.file)

/-- The input of a batch run: a single file, or a folder (whose directory
listing is `none` when the path is not a directory). -/
inductive ModeInput
  | singleFile (f : SrcFile)
  | folder (dir : Option (List DirEntry))

/-- The enumeration step of `run_conversion` (`batch_processor.rs` lines
57-60). -/
def enumerate : ModeInput → Except ConvError (List SrcFile)
  | .singleFile f => .ok [f]
  | .folder dir => get_files_in_directory dir

/-- `ProgressUpdate` (`src/app.rs` lines 13-20), with the same `Default`
values as the Rust `Default` derive. -/
structure ProgressUpdate where
  processed : ℕ := 0
  failed : ℕ := 0
  total : ℕ := 0
  current_file : String := ""
  is_complete : Bool := false
  error_message : Option String := none
deriving DecidableEq

/-- The state threaded through a batch run: the two counters, the file
system, and the ordered trace of progress updates sent so far. -/
structure RunState where
  processed : ℕ
  failed : ℕ
  fs : FS
  sent : List ProgressUpdate

/-- Sending on the unbounded progress channel (send failures are ignored by
the source, so a send always just appends to the trace). -/
def send (st : RunState) (u : ProgressUpdate) : RunState :=
  { st with sent := st.sent ++ [u] }

/-- The PDF page output name `"<stem>_page_<k>.<ext>"`
(`batch_processor.rs` line 250). -/
def pageName (f : SrcFile) (fmt : OutputFormat) (k : ℕ) : String :=
  f.path.stem ++ "_page_" ++ toString k ++ "." ++ fmt.extension

/-- The image output name: original file name with the extension replaced by
the format's canonical extension (`batch_processor.rs` lines 310-311). -/
def imageOutName (f : SrcFile) (fmt : OutputFormat) : String :=
  f.path.stem ++ "." ++ fmt.extension

/-- One iteration of the page loop of `process_pdf` (`batch_processor.rs`
lines 249-294): compress-and-save the i-th rendered image under the page name
`i + 1`, bump `processed` or `failed`, and send a snapshot. -/
noncomputable def pdfPageStep
    (resize_exact : Bitmap → ℕ → ℕ → FilterType → Bitmap) (wm : Watermark)
    (target_kb : ℕ) (fmt : OutputFormat) (f : SrcFile) (total i : ℕ)
    (st : RunState) (img : Bitmap) : RunState :=
  let rfs := compress_and_save_with_watermark resize_exact wm img
    (pageName f fmt (i + 1)) target_kb fmt st.fs
  let st1 := match rfs.1 with
    | .ok _ => { st with fs := rfs.2, processed := st.processed + 1 }
    | .error _ => { st with fs := rfs.2, failed := st.failed + 1 }
  let u : ProgressUpdate :=
    { processed := st1.processed, failed := st1.failed, total := total,
      current_file := f.path.render ++ " (第 " ++ toString (i + 1) ++ " 页)" }
  send st1 u

/-- The page loop of `process_pdf`, iterating `pdfPageStep` over the rendered
images in ascending page order. -/
noncomputable def processPdfPages
    (resize_exact : Bitmap → ℕ → ℕ → FilterType → Bitmap) (wm : Watermark)
    (target_kb : ℕ) (fmt : OutputFormat) (f : SrcFile) (total : ℕ) :
    List Bitmap → ℕ → RunState → RunState
  | [], _, st => st
  | img :: rest, i, st =>
      processPdfPages resize_exact wm target_kb fmt f total rest (i + 1)
        (pdfPageStep resize_exact wm target_kb fmt f total i st img)

/-- `process_pdf` (`batch_processor.rs` lines 232-296): render all pages,
then run the page loop. -/
noncomputable def process_pdf
    (resize_exact : Bitmap → ℕ → ℕ → FilterType → Bitmap) (wm : Watermark)
    (f : SrcFile) (target_kb : ℕ) (fmt : OutputFormat) (total : ℕ)
    (st : RunState) : Except ConvError Unit × RunState :=
  match convert_pdf_to_images f with
  | .error e => (.error e, st)
  | .ok images =>
      (.ok (), processPdfPages resize_exact wm target_kb fmt f total images 0 st)

/-- `process_image` (`batch_processor.rs` lines 298-344): decode, compress
and save, bump `processed` and send a snapshot on success; any error is
propagated to the caller. -/
noncomputable def process_image
    (resize_exact : Bitmap → ℕ → ℕ → FilterType → Bitmap) (wm : Watermark)
    (f : SrcFile) (target_kb : ℕ) (fmt : OutputFormat) (total : ℕ)
    (st : RunState) : Except ConvError Unit × RunState :=
  match f.decodeResult with
  | none => (.error .decodeError, st)
  | some img =>
      let rfs := compress_and_save_with_watermark resize_exact wm img
        (imageOutName f fmt) target_kb fmt st.fs
      match rfs.1 with
      | .error e => (.error e, { st with fs := rfs.2 })
      | .ok _ =>
          let st1 := { st with fs := rfs.2, processed := st.processed + 1 }
          let u : ProgressUpdate :=
            { processed := st1.processed, failed := st1.failed, total := total,
              current_file := f.path.render }
          (.ok (), send st1 u)

/-- `process_single_file` (`batch_processor.rs` lines 207-230): dispatch on
the pdf extension; when the processing function returns an error, add the
file's unit count to `failed`. -/
noncomputable def process_single_file
    (resize_exact : Bitmap → ℕ → ℕ → FilterType → Bitmap) (wm : Watermark)
    (target_kb : ℕ) (fmt : OutputFormat) (total : ℕ)
    (st : RunState) (f : SrcFile) : RunState :=
  let r := if f.isPdf then process_pdf resize_exact wm f target_kb fmt total st
    else process_image resize_exact wm f target_kb fmt total st
  match r.1 with
  | .ok _ => r.2
  | .error _ => { r.2 with failed := r.2.failed + unitCount f }

/-- The post-enumeration phase of `run_conversion` (`batch_processor.rs`
lines 62-175): empty-input check, pre-scan announcement of the total,
processing of every file (the format-dependent parallel/serial strategies all
run `process_single_file` on every file; the model fixes the
enumeration-order interleaving, which is exact for the serial PNG strategy
and count-equivalent for the parallel ones), and the final completion
snapshot. -/
noncomputable def runWithFiles
    (resize_exact : Bitmap → ℕ → ℕ → FilterType → Bitmap) (wm : Watermark)
    (target_kb : ℕ) (fmt : OutputFormat) (fs0 : FS)
    (files_to_process : List SrcFile) : RunState :=
  let st0 : RunState := ⟨0, 0, fs0, []⟩
  if files_to_process.isEmpty then
    send st0 { is_complete := true }
  else
    let st1 := send st0 { current_file := "正在计算总任务数..." }
    let total_tasks := totalTasks files_to_process
    let st2 := send st1 { total := total_tasks }
    if total_tasks = 0 then
      send st2 { is_complete := true, total := 0 }
    else
      let st3 := files_to_process.foldl
        (process_single_file resize_exact wm target_kb fmt total_tasks) st2
      let fin : ProgressUpdate :=
        { processed := st3.processed, failed := st3.failed,
          total := total_tasks, is_complete := true }
      send st3 fin

/-- `run_conversion` (`batch_processor.rs` lines 48-176): enumerate the input
(the only fallible step that escapes to the caller), then run the
post-enumeration phase. -/
noncomputable def run_conversion
    (resize_exact : Bitmap → ℕ → ℕ → FilterType → Bitmap) (wm : Watermark)
    (minput : ModeInput) (target_kb : ℕ) (fmt : OutputFormat) (fs0 : FS) :
    Except ConvError Unit × RunState :=
  match enumerate minput with
  | .error e => (.error e, (⟨0, 0, fs0, []⟩ : RunState))
  | .ok files_to_process =>
      (.ok (), runWithFiles resize_exact wm target_kb fmt fs0 files_to_process)

/-- The error text `format!("处理失败: {}", e)` sent by `process_files`;
only its presence matters to the claims, so the formatted payload is elided. -/
def convErrMsg (_ : ConvError) : String := "处理失败"

/-- `process_files` (`batch_processor.rs` lines 17-46): run the conversion on
a blocking task and, if it returns an error, send a final snapshot with
`is_complete = true` and the error message. -/
noncomputable def process_files
    (resize_exact : Bitmap → ℕ → ℕ → FilterType → Bitmap) (wm : Watermark)
    (minput : ModeInput) (target_kb : ℕ) (fmt : OutputFormat) (fs0 : FS) :
    RunState :=
  match run_conversion resize_exact wm minput target_kb fmt fs0 with
  | (.ok _, st) => st
  | (.error e, st) => send st { is_complete := true, error_message := some (convErrMsg e) }

/-- The quality decay step of the JPEG search:
`(quality as f32 * 0.8) as u8`, which equals `⌊quality * 0.8⌋ = 4 * q / 5` on
the quality range the program uses. -/
def jpegDecay (q : ℕ) : ℕ := 4 * q / 5

/-- The quality decay step of the WebP lossy search: `quality * 0.8`. -/
def webpDecay (q : ℚ) : ℚ := q * (4 / 5)

/-! Concrete collaborator instances used by witnesses and counterexamples. -/

/-- A trivial resize collaborator (identity), used for concrete runs. -/
def rf0 : Bitmap → ℕ → ℕ → FilterType → Bitmap := fun b _ _ _ => b

/-- An initially empty file system on which every write succeeds. -/
def fsT : FS := ⟨[], fun _ => true⟩

/-- A 10 by 10 test bitmap with tiny oracle outputs. -/
def bmpA : Bitmap := ⟨10, 10, fun _ => [0], fun _ => [0], [0], [7]⟩

/-- A 1000 by 1000 test bitmap, large enough that the PNG size estimate is in
the megabytes. -/
def bmpK : Bitmap := ⟨1000, 1000, fun _ => [0], fun _ => [0], [0], [7]⟩

/-- A 65536 by 65536 bitmap: its true pixel count is `2 ^ 32`, which the
`u32` multiplication wraps to 0.  Its lossless webp oracle output is `[0]`
(length 1) and its lossy webp oracle output is `[0, 0]` (length 2). -/
def bigBmp : Bitmap := ⟨65536, 65536, fun _ => [0], fun _ => [0, 0], [0], [9]⟩

/-- A small page bitmap whose fast PNG encode is `[1]`. -/
def pdfBmp1 : Bitmap := ⟨4, 4, fun _ => [0], fun _ => [0], [0], [1]⟩

/-- A small page bitmap whose fast PNG encode is `[2]`. -/
def pdfBmp2 : Bitmap := ⟨4, 4, fun _ => [0], fun _ => [0], [0], [2]⟩

/-- An ordinary image file that decodes to `bmpA`. -/
def imgFileA : SrcFile := ⟨⟨"photo", some "png"⟩, some bmpA, none⟩

/-- A 2-page PDF whose second page fails to render. -/
def pdfSkip : SrcFile := ⟨⟨"doc", some "pdf"⟩, none, some [some pdfBmp1, none]⟩

/-- A 1-page PDF with stem "doc" (e.g. `dir1/doc.pdf` in a recursive walk). -/
def pdfD1 : SrcFile := ⟨⟨"doc", some "pdf"⟩, none, some [some pdfBmp1]⟩

/-- A different 1-page PDF, also with stem "doc" (e.g. `dir2/doc.pdf`). -/
def pdfD2 : SrcFile := ⟨⟨"doc", some "pdf"⟩, none, some [some pdfBmp2]⟩

/-- An image file named `b.png`. -/
def filePngB : SrcFile := ⟨⟨"b", some "png"⟩, some bmpA, none⟩

/-- An image file named `a.png`. -/
def filePngA : SrcFile := ⟨⟨"a", some "png"⟩, some bmpA, none⟩

/-- A file with an unsupported extension, `notes.txt`. -/
def fileTxt : SrcFile := ⟨⟨"notes", some "txt"⟩, none, none⟩

/-! ## Helper lemmas -/

/-- The binary32 literal `0.7f32` is `11744051 * 2 ^ (-24)`: this dyadic with
24-bit mantissa is within half an ulp (`2 ^ (-25)`) of 7/10, hence it is the
round-to-nearest binary32 value of the decimal literal `0.7`. -/
theorem seven_tenths_half_ulp :
    |(11744051 : ℚ) / 2 ^ 24 - 7 / 10| ≤ 1 / 2 ^ 25 := by
  rw [abs_le]
  constructor <;> norm_num

/-- A positive input with positive fuel yields a positive bit length. -/
theorem bitLenAux_pos (fuel n : ℕ) (h1 : 1 ≤ n) (h2 : 1 ≤ fuel) :
    1 ≤ bitLenAux fuel n := by
  cases fuel with
  | zero => omega
  | succ f =>
    show 1 ≤ (if n = 0 then 0 else bitLenAux f (n / 2) + 1)
    rw [if_neg (by omega)]
    omega

/-- With enough fuel the bit length does not overestimate:
`2 ^ (bitLen n - 1) ≤ n`. -/
theorem bitLenAux_le (fuel : ℕ) : ∀ n : ℕ, 1 ≤ n → n ≤ fuel →
    2 ^ (bitLenAux fuel n - 1) ≤ n := by
  induction fuel with
  | zero => intro n h1 h2; omega
  | succ f ih =>
    intro n h1 h2
    show 2 ^ ((if n = 0 then 0 else bitLenAux f (n / 2) + 1) - 1) ≤ n
    rw [if_neg (by omega)]
    by_cases hn : n = 1
    · subst hn
      have h0 : bitLenAux f (1 / 2) = 0 := by
        have h12 : (1 : ℕ) / 2 = 0 := by norm_num
        rw [h12]
        cases f with
        | zero => rfl
        | succ g =>
          show (if (0 : ℕ) = 0 then 0 else bitLenAux g (0 / 2) + 1) = 0
          rw [if_pos rfl]
      rw [h0]
      norm_num
    · have hf1 : 1 ≤ f := by omega
      have hd1 : 1 ≤ n / 2 := by omega
      have hd2 : n / 2 ≤ f := by omega
      have ihx := ih (n / 2) hd1 hd2
      have hp := bitLenAux_pos f (n / 2) hd1 hf1
      have ha : bitLenAux f (n / 2) + 1 - 1 = (bitLenAux f (n / 2) - 1) + 1 := by omega
      rw [ha, pow_succ]
      omega

/-- Every positive `n` is at least `2 ^ (bitLen n - 1)`. -/
theorem bitLen_le (n : ℕ) (h : 1 ≤ n) : 2 ^ (bitLen n - 1) ≤ n :=
  bitLenAux_le n n h le_rfl

/-- Dyadic truncation toward zero is the floor of the denoted value. -/
theorem dyadicTruncNat_bounds (M : ℕ) (E : ℤ) :
    (dyadicTruncNat M E : ℚ) ≤ dval M E ∧ dval M E < dyadicTruncNat M E + 1 := by
  cases E with
  | ofNat k =>
    have heq : (dyadicTruncNat M (.ofNat k) : ℚ) = dval M (.ofNat k) := by
      show ((M * 2 ^ k : ℕ) : ℚ) = (M : ℚ) * (2 : ℚ) ^ (Int.ofNat k)
      rw [show (Int.ofNat k) = (k : ℤ) from rfl, zpow_natCast]
      push_cast
      ring
    exact ⟨le_of_eq heq, by rw [← heq]; linarith⟩
  | negSucc k =>
    have hval : dval M (.negSucc k) = (M : ℚ) / (2 : ℚ) ^ (k + 1) := by
      show (M : ℚ) * (2 : ℚ) ^ (Int.negSucc k) = _
      rw [zpow_negSucc, div_eq_mul_inv]
    have htrunc : dyadicTruncNat M (.negSucc k) = M / 2 ^ (k + 1) := rfl
    have hpow : (0 : ℚ) < (2 : ℚ) ^ (k + 1) := by positivity
    constructor
    · rw [htrunc, hval]
      calc ((M / 2 ^ (k + 1) : ℕ) : ℚ) ≤ (M : ℚ) / ((2 ^ (k + 1) : ℕ) : ℚ) :=
            Nat.cast_div_le
        _ = (M : ℚ) / (2 : ℚ) ^ (k + 1) := by norm_cast
    · rw [htrunc, hval, div_lt_iff₀ hpow]
      have hd := Nat.div_add_mod M (2 ^ (k + 1))
      have hm := Nat.mod_lt M (show 0 < 2 ^ (k + 1) by positivity)
      have hnat : M < (M / 2 ^ (k + 1) + 1) * 2 ^ (k + 1) := by
        have hx : (M / 2 ^ (k + 1) + 1) * 2 ^ (k + 1) =
            2 ^ (k + 1) * (M / 2 ^ (k + 1)) + 2 ^ (k + 1) := by ring
        omega
      exact_mod_cast hnat

/-- Unfolding of `f32RoundDyadic` in the rounding branch. -/
theorem f32RoundDyadic_eq_of_gt (M : ℕ) (E : ℤ) (h : 24 < bitLen M) :
    f32RoundDyadic M E =
      ((if M % 2 ^ (bitLen M - 24) < 2 ^ (bitLen M - 24 - 1) then M / 2 ^ (bitLen M - 24)
        else if 2 ^ (bitLen M - 24 - 1) < M % 2 ^ (bitLen M - 24) then
          M / 2 ^ (bitLen M - 24) + 1
        else M / 2 ^ (bitLen M - 24) + M / 2 ^ (bitLen M - 24) % 2),
       E + ((bitLen M - 24 : ℕ) : ℤ)) := by
  unfold f32RoundDyadic
  rw [if_neg (by omega)]

/-- Binary32 rounding changes a positive value by at most half an ulp, which
is at most `2 ^ (-24)` of the value. -/
theorem f32RoundDyadic_err (M : ℕ) (E : ℤ) (hM : 1 ≤ M) :
    |dval (f32RoundDyadic M E).1 (f32RoundDyadic M E).2 - dval M E| ≤
      dval M E / 2 ^ 24 := by
  have hdnn : (0 : ℚ) ≤ dval M E := by
    unfold dval
    positivity
  by_cases hL : bitLen M ≤ 24
  · have heq : f32RoundDyadic M E = (M, E) := by
      unfold f32RoundDyadic
      rw [if_pos hL]
    rw [heq]
    show |dval M E - dval M E| ≤ dval M E / 2 ^ 24
    rw [sub_self, abs_zero]
    positivity
  · push_neg at hL
    rw [f32RoundDyadic_eq_of_gt M E hL]
    set s : ℕ := bitLen M - 24 with hsdef
    have hs1 : 1 ≤ s := by omega
    set q : ℕ := M / 2 ^ s with hqdef
    set r : ℕ := M % 2 ^ s with hrdef
    set q2 : ℕ := (if r < 2 ^ (s - 1) then q
      else if 2 ^ (s - 1) < r then q + 1 else q + q % 2) with hq2def
    have hmod : 2 ^ s * q + r = M := by
      rw [hqdef, hrdef]
      exact Nat.div_add_mod M (2 ^ s)
    have hrlt : r < 2 ^ s := by
      rw [hrdef]
      exact Nat.mod_lt M (by positivity)
    have hhalf : 2 ^ (s - 1) + 2 ^ (s - 1) = 2 ^ s := by
      have hx : 2 ^ (s - 1) + 2 ^ (s - 1) = 2 ^ (s - 1) * 2 := by ring
      have hy : s - 1 + 1 = s := by omega
      rw [hx, ← pow_succ, hy]
    have hcomm : q * 2 ^ s = 2 ^ s * q := Nat.mul_comm q (2 ^ s)
    have hlow : M ≤ q2 * 2 ^ s + 2 ^ (s - 1) := by
      rw [hq2def]
      split_ifs with h1 h2
      · omega
      · have hx : (q + 1) * 2 ^ s = q * 2 ^ s + 2 ^ s := by ring
        omega
      · rcases (by omega : q % 2 = 0 ∨ q % 2 = 1) with hqm | hqm <;> rw [hqm]
        · have hx : (q + 0) * 2 ^ s = q * 2 ^ s := by ring
          omega
        · have hx : (q + 1) * 2 ^ s = q * 2 ^ s + 2 ^ s := by ring
          omega
    have hhigh : q2 * 2 ^ s ≤ M + 2 ^ (s - 1) := by
      rw [hq2def]
      split_ifs with h1 h2
      · omega
      · have hx : (q + 1) * 2 ^ s = q * 2 ^ s + 2 ^ s := by ring
        omega
      · rcases (by omega : q % 2 = 0 ∨ q % 2 = 1) with hqm | hqm <;> rw [hqm]
        · have hx : (q + 0) * 2 ^ s = q * 2 ^ s := by ring
          omega
        · have hx : (q + 1) * 2 ^ s = q * 2 ^ s + 2 ^ s := by ring
          omega
    have hkey : |(q2 : ℚ) * 2 ^ s - M| ≤ 2 ^ (s - 1) := by
      rw [abs_le]
      have hcl : (M : ℚ) ≤ (q2 : ℚ) * 2 ^ s + 2 ^ (s - 1) := by
        exact_mod_cast hlow
      have hch : (q2 : ℚ) * 2 ^ s ≤ (M : ℚ) + 2 ^ (s - 1) := by
        exact_mod_cast hhigh
      constructor <;> linarith
    have hpowE : (0 : ℚ) < (2 : ℚ) ^ E := zpow_pos (by norm_num) E
    have hfact : dval q2 (E + (s : ℤ)) - dval M E =
        ((q2 : ℚ) * 2 ^ s - M) * (2 : ℚ) ^ E := by
      unfold dval
      rw [zpow_add₀ (by norm_num : (2 : ℚ) ≠ 0), zpow_natCast]
      ring
    have hM2 : (2 : ℚ) ^ (s + 23) ≤ (M : ℚ) := by
      have hb := bitLen_le M hM
      have hL1 : bitLen M - 1 = s + 23 := by omega
      rw [hL1] at hb
      exact_mod_cast hb
    show |dval q2 (E + (s : ℤ)) - dval M E| ≤ dval M E / 2 ^ 24
    calc |dval q2 (E + (s : ℤ)) - dval M E|
        = |(q2 : ℚ) * 2 ^ s - M| * (2 : ℚ) ^ E := by
          rw [hfact, abs_mul, abs_of_pos hpowE]
      _ ≤ (2 : ℚ) ^ (s - 1) * (2 : ℚ) ^ E :=
          mul_le_mul_of_nonneg_right hkey (le_of_lt hpowE)
      _ ≤ dval M E / 2 ^ 24 := by
          unfold dval
          have h1 : (2 : ℚ) ^ (s - 1) ≤ (M : ℚ) / 2 ^ 24 := by
            rw [le_div_iff₀ (by positivity : (0 : ℚ) < 2 ^ 24)]
            calc (2 : ℚ) ^ (s - 1) * 2 ^ 24 = 2 ^ (s - 1 + 24) :=
                  (pow_add 2 (s - 1) 24).symm
              _ = 2 ^ (s + 23) := by
                  congr 1
                  omega
              _ ≤ M := hM2
          calc (2 : ℚ) ^ (s - 1) * (2 : ℚ) ^ E
              ≤ ((M : ℚ) / 2 ^ 24) * (2 : ℚ) ^ E :=
                mul_le_mul_of_nonneg_right h1 (le_of_lt hpowE)
            _ = (M : ℚ) * (2 : ℚ) ^ E / 2 ^ 24 := by ring

/-- The rounded dyadic denotes a nonnegative value. -/
theorem f32RoundDyadic_nonneg (M : ℕ) (E : ℤ) :
    (0 : ℚ) ≤ dval (f32RoundDyadic M E).1 (f32RoundDyadic M E).2 := by
  unfold dval
  positivity

/-- Two-sided bound on the estimator: `estimate_png_size w h - 1024` lies
within relative error `4 * 2 ^ (-24)` plus one unit of truncation of
`2.1 * p`, `p` the wrapped pixel count. -/
theorem estimate_png_size_bounds (w h : ℕ) :
    21 * ((w * h % 2 ^ 32 : ℕ) : ℚ) / 10 * (1 - 4 / 2 ^ 24) - 1 + 1024 ≤
      (estimate_png_size w h : ℚ) ∧
    (estimate_png_size w h : ℚ) ≤
      21 * ((w * h % 2 ^ 32 : ℕ) : ℚ) / 10 * (1 + 4 / 2 ^ 24) + 1024 := by
  set p : ℕ := w * h % 2 ^ 32 with hpdef
  rcases Nat.eq_zero_or_pos p with hp0 | hp1
  · have hest : estimate_png_size w h = 1024 := by
      unfold estimate_png_size
      rw [← hpdef, hp0]
      decide
    rw [hest, hp0]
    norm_num
  · have hpq : (1 : ℚ) ≤ (p : ℚ) := by exact_mod_cast hp1
    set base : ℕ := p * 3 with hbasedef
    have hbase1 : 1 ≤ base := by omega
    have hb := f32RoundDyadic_err base 0 hbase1
    set b := f32RoundDyadic base 0 with hbdef
    have hdb : dval base 0 = (base : ℚ) := by
      unfold dval
      rw [zpow_zero, mul_one]
    rw [hdb] at hb
    have hbaseq : (base : ℚ) = 3 * (p : ℚ) := by
      rw [hbasedef]
      push_cast
      ring
    rw [hbaseq] at hb
    rw [abs_le] at hb
    have hbnn : (0 : ℚ) ≤ dval b.1 b.2 := f32RoundDyadic_nonneg base 0
    have hb1 : 1 ≤ b.1 * 11744051 := by
      have hb1p : 1 ≤ b.1 := by
        by_contra hcon
        have hb10 : b.1 = 0 := by omega
        have hz : dval b.1 b.2 = 0 := by
          unfold dval
          rw [hb10]
          push_cast
          ring
        rw [hz] at hb
        have := hb.2
        linarith
      exact Nat.one_le_iff_ne_zero.mpr (Nat.mul_ne_zero
        (Nat.one_le_iff_ne_zero.mp hb1p) (by norm_num))
    have hr := f32RoundDyadic_err (b.1 * 11744051) (b.2 - 24) hb1
    set rr := f32RoundDyadic (b.1 * 11744051) (b.2 - 24) with hrrdef
    have hdprod : dval (b.1 * 11744051) (b.2 - 24) =
        dval b.1 b.2 * (11744051 / 2 ^ 24) := by
      unfold dval
      rw [zpow_sub₀ (by norm_num : (2 : ℚ) ≠ 0)]
      push_cast
      rw [show ((24 : ℤ)) = ((24 : ℕ) : ℤ) from rfl, zpow_natCast]
      ring
    rw [hdprod] at hr
    rw [abs_le] at hr
    have ht := dyadicTruncNat_bounds rr.1 rr.2
    have hest : estimate_png_size w h = dyadicTruncNat rr.1 rr.2 + 1024 := by
      rw [hrrdef, hbdef, hbasedef, hpdef]
      rfl
    rw [hest]
    push_cast
    constructor
    · nlinarith [ht.1, ht.2, hr.1, hr.2, hb.1, hb.2, hbnn, hpq]
    · nlinarith [ht.1, ht.2, hr.1, hr.2, hb.1, hb.2, hbnn, hpq]

/-- The PNG scale factor is clamped to at most 1. -/
theorem pngScaleFactor_le_one (t q : ℕ) : pngScaleFactor t q ≤ 1 :=
  min_le_right _ _

/-- First-hitting characterization of the JPEG quality search: the recursion
returns the encode at the first quality of the decay sequence that fits the
target or has reached the floor, and all earlier qualities were oversized and
above the floor. -/
theorem turbo_encode_jpeg_first_fit (img : Bitmap) (target : ℕ) :
    ∀ q : ℕ, ∃ k : ℕ,
      turbo_encode_jpeg img q (some target) = img.jpegEnc (jpegDecay^[k] q) ∧
      ((img.jpegEnc (jpegDecay^[k] q)).length ≤ target ∨ jpegDecay^[k] q ≤ 10) ∧
      ∀ j, j < k →
        target < (img.jpegEnc (jpegDecay^[j] q)).length ∧ 10 < jpegDecay^[j] q := by
  intro q
  induction q using Nat.strong_induction_on with
  | _ q ih =>
    by_cases h : target < (img.jpegEnc q).length ∧ 10 < q
    · obtain ⟨k, hk1, hk2, hk3⟩ := ih (4 * q / 5) (by omega)
      refine ⟨k + 1, ?_, ?_, ?_⟩
      · rw [turbo_encode_jpeg, dif_pos h, hk1, Function.iterate_succ_apply]
        rfl
      · rw [Function.iterate_succ_apply]
        exact hk2
      · intro j hj
        cases j with
        | zero => exact ⟨h.1, h.2⟩
        | succ j =>
          rw [Function.iterate_succ_apply]
          exact hk3 j (by omega)
    · refine ⟨0, ?_, ?_, fun j hj => absurd hj (by omega)⟩
      · rw [turbo_encode_jpeg, dif_neg h]
        rfl
      · show (img.jpegEnc q).length ≤ target ∨ q ≤ 10
        omega

/-! ## Claim theorems -/

/-- C1: for every bitmap and target, the adaptive JPEG strategy starts from
the target-size tier quality (40 when the target is below 50 KB, 60 below
200 KB, otherwise 80), and returns the collaborator encode at the first
quality of the `floor (q * 0.8)` decay sequence whose output fits the target
or whose value is at most the floor 10; every earlier quality in the sequence
produced an oversized result while still above 10.  In particular the retry
process terminates and at the quality floor the last encode result is
returned even if it still exceeds the target. -/
theorem c1_jpeg_adaptive_quality_search (img : Bitmap) (target_bytes : ℕ) :
    ∃ q0 k : ℕ,
      q0 = (if target_bytes < 50000 then 40
        else if target_bytes < 200000 then 60 else 80) ∧
      turbo_encode_jpeg_adaptive img target_bytes = img.jpegEnc (jpegDecay^[k] q0) ∧
      ((img.jpegEnc (jpegDecay^[k] q0)).length ≤ target_bytes ∨ jpegDecay^[k] q0 ≤ 10) ∧
      ∀ j, j < k →
        target_bytes < (img.jpegEnc (jpegDecay^[j] q0)).length ∧
          10 < jpegDecay^[j] q0 := by
  obtain ⟨k, h1, h2, h3⟩ := turbo_encode_jpeg_first_fit img target_bytes
    (if target_bytes < 50000 then 40 else if target_bytes < 200000 then 60 else 80)
  exact ⟨_, k, rfl, h1, h2, h3⟩

/-- C3: in the PNG size-targeted strategy, when the estimator predicts a size
within the target, the result is exactly the single fast no-extra-compression
encode of the original bitmap (the resize collaborator is not involved, so no
resize occurs). -/
theorem c3_png_estimate_fits_fast_encode
    (resize_exact : Bitmap → ℕ → ℕ → FilterType → Bitmap) (img : Bitmap)
    (target_bytes : ℕ)
    (h : estimate_png_size img.width img.height ≤ target_bytes) :
    turbo_encode_png_compressed resize_exact img target_bytes =
      .ok (turbo_encode_png_fast img) := by
  simp only [turbo_encode_png_compressed]
  rw [if_pos h]

/-- C3 witness: a 10 by 10 bitmap with target 2000 bytes takes the fast-encode
path. -/
theorem c3_png_estimate_fits_fast_encode_witness :
    estimate_png_size bmpA.width bmpA.height ≤ 2000 ∧
    turbo_encode_png_compressed rf0 bmpA 2000 = .ok (turbo_encode_png_fast bmpA) := by
  have h : estimate_png_size bmpA.width bmpA.height ≤ 2000 := by
    show estimate_png_size 10 10 ≤ 2000
    decide
  exact ⟨h, c3_png_estimate_fits_fast_encode rf0 bmpA 2000 h⟩

/-- C4: in the PNG size-targeted strategy, when the estimate exceeds the
target, the strategy fails with the typed `targetTooSmall` error exactly when
the scale factor `min (sqrt (target / estimate) * 0.95) 1` is below 0.1;
otherwise the scale factor lies in `[0.1, 1]` (never below 10 percent of the
original linear dimension) and the strategy resizes to the rounded scaled
dimensions (floored at 32) and fast-encodes the resized bitmap. -/
theorem c4_png_scale_floor
    (resize_exact : Bitmap → ℕ → ℕ → FilterType → Bitmap) (img : Bitmap)
    (target_bytes : ℕ)
    (h : ¬ estimate_png_size img.width img.height ≤ target_bytes) :
    (turbo_encode_png_compressed resize_exact img target_bytes =
        .error .targetTooSmall ↔
      pngScaleFactor target_bytes (estimate_png_size img.width img.height) < 0.1) ∧
    (¬ pngScaleFactor target_bytes (estimate_png_size img.width img.height) < 0.1 →
      (0.1 : ℝ) ≤ pngScaleFactor target_bytes (estimate_png_size img.width img.height) ∧
      pngScaleFactor target_bytes (estimate_png_size img.width img.height) ≤ 1 ∧
      ∃ filter : FilterType,
        turbo_encode_png_compressed resize_exact img target_bytes =
          .ok (turbo_encode_png_fast (resize_exact img
            (max (round ((img.width : ℝ) *
              pngScaleFactor target_bytes (estimate_png_size img.width img.height))) 32).toNat
            (max (round ((img.height : ℝ) *
              pngScaleFactor target_bytes (estimate_png_size img.width img.height))) 32).toNat
            filter))) := by
  simp only [turbo_encode_png_compressed]
  rw [if_neg h]
  by_cases hlt :
    pngScaleFactor target_bytes (estimate_png_size img.width img.height) < 0.1
  · rw [if_pos hlt]
    exact ⟨⟨fun _ => hlt, fun _ => rfl⟩, fun hn => absurd hlt hn⟩
  · rw [if_neg hlt]
    refine ⟨⟨fun hcontra => absurd hcontra (by simp), fun hcontra => absurd hcontra hlt⟩,
      fun _ => ⟨le_of_not_lt hlt, pngScaleFactor_le_one _ _, _, rfl⟩⟩

/-- C4 witness: a 10 by 10 bitmap with target 100 bytes is over the estimate,
so the theorem applies; its conclusion instantiates at these values. -/
theorem c4_png_scale_floor_witness :
    ¬ estimate_png_size bmpA.width bmpA.height ≤ 100 ∧
    (turbo_encode_png_compressed rf0 bmpA 100 = .error .targetTooSmall ↔
      pngScaleFactor 100 (estimate_png_size bmpA.width bmpA.height) < 0.1) := by
  have h : ¬ estimate_png_size bmpA.width bmpA.height ≤ 100 := by
    show ¬ estimate_png_size 10 10 ≤ 100
    decide
  exact ⟨h, (c4_png_scale_floor rf0 bmpA 100 h).1⟩

/-- C9 counterexample: the claim's exact formula and exact linear-scaling law
both fail.  Doubling the pixel count from 5 to 10 does not double
`estimate - overhead` (`21 ≠ 2 * 10`: `15 * 0.7f32` is exactly `10.5`, which
truncates to `10`, while `30 * 0.7f32` is exactly `21`); at dimensions
`(1, 3994577)` the f32 product rounds upward across an integer boundary, so
the code returns `8389636` while the claimed exact formula
`⌊0.7 * 3 * pixels⌋ + 1024` gives `8389635`; and at 65536 by 65536 the `u32`
pixel multiplication wraps to 0, so the code yields the bare overhead 1024
while the claimed formula does not. -/
theorem c9_counterexample_floor_doubling :
    (estimate_png_size 1 10 - 1024 ≠ 2 * (estimate_png_size 1 5 - 1024)) ∧
    (estimate_png_size 1 3994577 = 8389636 ∧
      ⌊(0.7 : ℚ) * 3 * ((1 : ℚ) * 3994577)⌋₊ + 1024 = 8389635) ∧
    estimate_png_size 65536 65536 = 1024 ∧
    ⌊(0.7 : ℚ) * 3 * ((65536 : ℚ) * 65536)⌋₊ + 1024 ≠ 1024 := by
  refine ⟨by decide, ⟨by decide, ?_⟩, by decide, ?_⟩
  · have hcast : (0.7 : ℚ) * 3 * ((1 : ℚ) * 3994577) =
        ((83886117 : ℕ) : ℚ) / ((10 : ℕ) : ℚ) := by norm_num
    rw [hcast, Nat.floor_div_nat, Nat.floor_natCast]
  · intro hcontra
    have h1 : (1 : ℕ) ≤ ⌊(0.7 : ℚ) * 3 * ((65536 : ℚ) * 65536)⌋₊ := by
      apply Nat.le_floor
      norm_num
    omega

/-- C9 amended: `estimate_png_size` is a pure total function of the
dimensions, equal to the truncated binary32 computation
`(3 * ((w * h) mod 2 ^ 32) as f32 * 0.7f32) as usize + 1024` (modelled
bit-exactly by definition).  It tracks the claimed `0.7 * 3 * pixels` law
only approximately: writing `p` for the wrapped pixel count,
`21 * p / 10 * (1 - 4 / 2 ^ 24) - 1 ≤ estimate - 1024 ≤
21 * p / 10 * (1 + 4 / 2 ^ 24)`, and doubling the wrapped pixel count
doubles `estimate - 1024` only up to an error of at most
`21 * p / 10 * (16 / 2 ^ 24) + 3`; the exact formula and the exact doubling
law of the original claim are false. -/
theorem c9_amended_estimator_formula :
    (∀ w h : ℕ,
      21 * ((w * h % 2 ^ 32 : ℕ) : ℚ) / 10 * (1 - 4 / 2 ^ 24) - 1 + 1024 ≤
        (estimate_png_size w h : ℚ) ∧
      (estimate_png_size w h : ℚ) ≤
        21 * ((w * h % 2 ^ 32 : ℕ) : ℚ) / 10 * (1 + 4 / 2 ^ 24) + 1024) ∧
    (∀ w h w2 h2 : ℕ, w2 * h2 % 2 ^ 32 = 2 * (w * h % 2 ^ 32) →
      |((estimate_png_size w2 h2 : ℚ) - 1024) -
          2 * ((estimate_png_size w h : ℚ) - 1024)| ≤
        21 * ((w * h % 2 ^ 32 : ℕ) : ℚ) / 10 * (16 / 2 ^ 24) + 3) := by
  refine ⟨estimate_png_size_bounds, ?_⟩
  intro w h w2 h2 hdouble
  have h1 := estimate_png_size_bounds w h
  have h2b := estimate_png_size_bounds w2 h2
  rw [hdouble] at h2b
  push_cast at h2b
  rw [abs_le]
  constructor <;> linarith [h1.1, h1.2, h2b.1, h2b.2]

/-- C9 amended witness: dimensions (1, 5) and (1, 10) double the wrapped
pixel count and the amended doubling bound holds there. -/
theorem c9_amended_estimator_formula_witness :
    (1 * 10 % 2 ^ 32 = 2 * (1 * 5 % 2 ^ 32)) ∧
    |((estimate_png_size 1 10 : ℚ) - 1024) -
        2 * ((estimate_png_size 1 5 : ℚ) - 1024)| ≤
      21 * ((1 * 5 % 2 ^ 32 : ℕ) : ℚ) / 10 * (16 / 2 ^ 24) + 3 :=
  ⟨by decide, c9_amended_estimator_formula.2 1 5 1 10 (by decide)⟩

/-- C10: `compress_and_save` writes the output path only after the selected
per-format encode strategy has fully succeeded: whenever the encode step (or
the watermark step of the watermark variant) fails, the function returns that
error and the file system is returned untouched. -/
theorem c10_atomic_output
    (resize_exact : Bitmap → ℕ → ℕ → FilterType → Bitmap) (img : Bitmap)
    (output_path : String) (target_kb : ℕ) (fmt : OutputFormat) (fs : FS)
    (e : ConvError) :
    (encodeForFormat resize_exact fmt img (target_kb * 1024) = .error e →
      compress_and_save resize_exact img output_path target_kb fmt fs =
        (.error e, fs)) ∧
    (encodeForFormat resize_exact fmt img (target_kb * 1024) = .error e →
      compress_and_save_with_watermark resize_exact none img output_path target_kb
        fmt fs = (.error e, fs)) ∧
    (∀ applyWm : Bitmap → Except ConvError Bitmap, applyWm img = .error e →
      compress_and_save_with_watermark resize_exact (some applyWm) img output_path
        target_kb fmt fs = (.error e, fs)) := by
  refine ⟨fun he => ?_, fun he => ?_, fun applyWm ha => ?_⟩
  · unfold compress_and_save
    rw [he]
  · unfold compress_and_save_with_watermark compress_and_save
    rw [he]
  · show (match applyWm img with
      | .error e => ((.error e : Except ConvError Unit), fs)
      | .ok processed =>
          compress_and_save resize_exact processed output_path target_kb fmt fs) =
      (.error e, fs)
    rw [ha]

/-- C10 witness: the PNG size-targeted strategy on a 1000 by 1000 bitmap with
target 0 KB fails with `targetTooSmall`, and `compress_and_save` leaves the
file system untouched. -/
theorem c10_atomic_output_witness :
    encodeForFormat rf0 .PngCompressed bmpK (0 * 1024) = .error .targetTooSmall ∧
    compress_and_save rf0 bmpK "doc.png" 0 .PngCompressed fsT =
      (.error .targetTooSmall, fsT) := by
  have hq : ¬ estimate_png_size bmpK.width bmpK.height ≤ 0 := by
    show ¬ estimate_png_size 1000 1000 ≤ 0
    decide
  have hs0 : pngScaleFactor 0 (estimate_png_size bmpK.width bmpK.height) < 0.1 := by
    show pngScaleFactor 0 (estimate_png_size 1000 1000) < 0.1
    unfold pngScaleFactor
    have h0 : ((0 : ℕ) : ℝ) / ((estimate_png_size 1000 1000 : ℕ) : ℝ) = 0 := by
      simp
    rw [h0, Real.sqrt_zero, zero_mul]
    have hmin : min (0 : ℝ) 1 = 0 := min_eq_left (by norm_num)
    rw [hmin]
    norm_num
  have he : encodeForFormat rf0 .PngCompressed bmpK (0 * 1024) =
      .error .targetTooSmall := by
    show turbo_encode_png_compressed rf0 bmpK 0 = .error .targetTooSmall
    simp only [turbo_encode_png_compressed]
    rw [if_neg hq, if_pos hs0]
  exact ⟨he,
    (c10_atomic_output rf0 bmpK "doc.png" 0 .PngCompressed fsT .targetTooSmall).1 he⟩

/-- One WebP quality-decay step strictly decreases the quality ceiling. -/
theorem webp_ceil_decay (q : ℚ) (hq : 10 < q) : ⌈q * (4 / 5)⌉₊ < ⌈q⌉₊ := by
  have hc : 10 < ⌈q⌉₊ := Nat.lt_ceil.mpr (by exact_mod_cast hq)
  have h1 : q ≤ (⌈q⌉₊ : ℚ) := Nat.le_ceil q
  have hc1 : 1 ≤ ⌈q⌉₊ := by omega
  have hcast : ((⌈q⌉₊ - 1 : ℕ) : ℚ) = (⌈q⌉₊ : ℚ) - 1 := by
    rw [Nat.cast_sub hc1, Nat.cast_one]
  have hc11 : (11 : ℚ) ≤ (⌈q⌉₊ : ℚ) := by exact_mod_cast hc
  have h2 : q * (4 / 5) ≤ ((⌈q⌉₊ - 1 : ℕ) : ℚ) := by
    rw [hcast]
    nlinarith [hc11, h1]
  calc ⌈q * (4 / 5)⌉₊ ≤ ⌈q⌉₊ - 1 := Nat.ceil_le.mpr h2
    _ < ⌈q⌉₊ := by omega

/-- First-hitting characterization of the WebP lossy quality search, the
analogue of the JPEG one on rational qualities. -/
theorem encode_webp_lossy_first_fit (img : Bitmap) (target : ℕ) :
    ∀ q : ℚ, ∃ k : ℕ,
      encode_webp_lossy img q (some target) = img.webpEnc (webpDecay^[k] q) ∧
      ((img.webpEnc (webpDecay^[k] q)).length ≤ target ∨ webpDecay^[k] q ≤ 10) ∧
      ∀ j, j < k →
        target < (img.webpEnc (webpDecay^[j] q)).length ∧
          (10 : ℚ) < webpDecay^[j] q := by
  suffices haux : ∀ n : ℕ, ∀ q : ℚ, ⌈q⌉₊ ≤ n → (∃ k : ℕ,
      encode_webp_lossy img q (some target) = img.webpEnc (webpDecay^[k] q) ∧
      ((img.webpEnc (webpDecay^[k] q)).length ≤ target ∨ webpDecay^[k] q ≤ 10) ∧
      ∀ j, j < k →
        target < (img.webpEnc (webpDecay^[j] q)).length ∧
          (10 : ℚ) < webpDecay^[j] q) by
    intro q
    exact haux ⌈q⌉₊ q le_rfl
  intro n
  induction n with
  | zero =>
    intro q hq
    have h10 : ¬ (10 : ℚ) < q := by
      intro hgt
      have hcc : 10 < ⌈q⌉₊ := Nat.lt_ceil.mpr (by exact_mod_cast hgt)
      omega
    refine ⟨0, ?_, Or.inr (le_of_not_lt h10), fun j hj => absurd hj (by omega)⟩
    rw [encode_webp_lossy, dif_neg (fun hh => h10 hh.2)]
    rfl
  | succ n ihn =>
    intro q hq
    by_cases h : target < (img.webpEnc q).length ∧ (10 : ℚ) < q
    · have hdec := webp_ceil_decay q h.2
      obtain ⟨k, hk1, hk2, hk3⟩ := ihn (q * (4 / 5)) (by omega)
      refine ⟨k + 1, ?_, ?_, ?_⟩
      · rw [encode_webp_lossy, dif_pos h, hk1, Function.iterate_succ_apply]
        rfl
      · rw [Function.iterate_succ_apply]
        exact hk2
      · intro j hj
        cases j with
        | zero => exact ⟨h.1, h.2⟩
        | succ j =>
          rw [Function.iterate_succ_apply]
          exact hk3 j (by omega)
    · refine ⟨0, ?_, ?_, fun j hj => absurd hj (by omega)⟩
      · rw [encode_webp_lossy, dif_neg h]
        rfl
      · show (img.webpEnc q).length ≤ target ∨ q ≤ 10
        by_cases hlen : (img.webpEnc q).length ≤ target
        · exact Or.inl hlen
        · exact Or.inr (le_of_not_lt fun hgt => h ⟨by omega, hgt⟩)

/-- The integer acceptance test `len <= target * 12 / 10` is exactly the
claimed rational bound `len <= 1.2 * target`. -/
theorem twelve_tenths_iff (len t : ℕ) :
    len ≤ t * 12 / 10 ↔ (len : ℚ) ≤ 6 / 5 * t := by
  rw [Nat.le_div_iff_mul_le (by norm_num : 0 < 10)]
  constructor
  · intro hn
    have hq : ((len * 10 : ℕ) : ℚ) ≤ ((t * 12 : ℕ) : ℚ) := by exact_mod_cast hn
    push_cast at hq
    linarith
  · intro hq
    have hn : ((len * 10 : ℕ) : ℚ) ≤ ((t * 12 : ℕ) : ℚ) := by push_cast; linarith
    exact_mod_cast hn

/-- C8 amended: the WebP smart strategy runs the lossy strategy first (initial
quality 50 below 50 KB, 75 below 200 KB, else 85, with the `* 0.8` geometric
decay and floor 10, characterized as a first-fit search); it returns the
lossless result exactly when (the caller prefers quality or the `u32`-wrapped
pixel count `w * h mod 2 ^ 32` is below the 500000 threshold) and the
lossless length is at most 1.2 times the target, and the lossy result
otherwise.  (The claim as frozen reads the condition on the true pixel count;
the code computes it in `u32` arithmetic, which wraps.) -/
theorem c8_amended_webp_smart (img : Bitmap) (target_size_bytes : ℕ)
    (prefer_quality : Bool) :
    ∃ q0 : ℚ,
      q0 = (if target_size_bytes < 50000 then 50
        else if target_size_bytes < 200000 then 75 else 85) ∧
      (encode_webp_smart img target_size_bytes prefer_quality =
        if (prefer_quality = true ∨ img.width * img.height % 2 ^ 32 < 500000) ∧
            ((img.webpLosslessEnc.length : ℚ) ≤ 6 / 5 * target_size_bytes) then
          img.webpLosslessEnc
        else encode_webp_lossy img q0 (some target_size_bytes)) ∧
      (∃ k : ℕ,
        encode_webp_lossy img q0 (some target_size_bytes) =
          img.webpEnc (webpDecay^[k] q0) ∧
        ((img.webpEnc (webpDecay^[k] q0)).length ≤ target_size_bytes ∨
          webpDecay^[k] q0 ≤ 10) ∧
        ∀ j, j < k →
          target_size_bytes < (img.webpEnc (webpDecay^[j] q0)).length ∧
            (10 : ℚ) < webpDecay^[j] q0) := by
  refine ⟨_, rfl, ?_, encode_webp_lossy_first_fit img target_size_bytes _⟩
  simp only [encode_webp_smart, encode_webp_lossless]
  set q0 : ℚ := (if target_size_bytes < 50000 then 50
    else if target_size_bytes < 200000 then 75 else 85) with hq0
  by_cases hp : prefer_quality = true ∨ img.width * img.height % 2 ^ 32 < 500000
  · by_cases hl : img.webpLosslessEnc.length ≤ target_size_bytes * 12 / 10
    · rw [if_pos hp, if_pos hl, if_pos ⟨hp, (twelve_tenths_iff _ _).mp hl⟩]
    · rw [if_pos hp, if_neg hl, if_neg
        (fun hc => hl ((twelve_tenths_iff _ _).mpr hc.2))]
  · rw [if_neg hp, if_neg (fun hc => hp hc.1)]

/-- C8 counterexample: on a 65536 by 65536 bitmap the true pixel count is
`2 ^ 32`, not below the 500000 threshold, and the caller does not prefer
quality, so by the claim only the lossy strategy should decide the result;
but the `u32` multiplication wraps the pixel count to 0, the code also runs
the lossless strategy, and returns the lossless result `[0]` instead of the
lossy result `[0, 0]`. -/
theorem c8_counterexample_pixel_wrap :
    encode_webp_smart bigBmp 200000 false = [0] ∧
    encode_webp_lossy bigBmp 85 (some 200000) = [0, 0] ∧
    bigBmp.webpLosslessEnc = [0] ∧
    ¬ (false = true ∨ bigBmp.width * bigBmp.height < 500000) := by
  refine ⟨by decide, ?_, rfl, by decide⟩
  have hcond : ¬ (200000 < (bigBmp.webpEnc 85).length ∧ (10 : ℚ) < 85) := by
    intro hh
    have hlen : (bigBmp.webpEnc 85).length = 2 := rfl
    have h2 := hh.1
    rw [hlen] at h2
    omega
  rw [encode_webp_lossy, dif_neg hcond]
  rfl

/-- A compress-and-save call either fails and returns the file system
untouched, or succeeds and pushes exactly one output file under the given
name, preserving the write oracle. -/
theorem compress_ww_cases (rf : Bitmap → ℕ → ℕ → FilterType → Bitmap)
    (wm : Watermark) (img : Bitmap) (out : String) (tkb : ℕ)
    (fmt : OutputFormat) (fs : FS) :
    (∃ e, compress_and_save_with_watermark rf wm img out tkb fmt fs =
      (.error e, fs)) ∨
    (∃ b, compress_and_save_with_watermark rf wm img out tkb fmt fs =
      (.ok (), ⟨(out, b) :: fs.files, fs.writeOk⟩)) := by
  have hcs : ∀ im : Bitmap,
      (∃ e, compress_and_save rf im out tkb fmt fs = (.error e, fs)) ∨
      (∃ b, compress_and_save rf im out tkb fmt fs =
        (.ok (), ⟨(out, b) :: fs.files, fs.writeOk⟩)) := by
    intro im
    cases hE : encodeForFormat rf fmt im (tkb * 1024) with
    | error e =>
      refine Or.inl ⟨e, ?_⟩
      simp only [compress_and_save, hE]
    | ok bytes =>
      by_cases hw : fs.writeOk out
      · refine Or.inr ⟨bytes, ?_⟩
        simp only [compress_and_save, hE]
        rw [if_pos hw]
      · refine Or.inl ⟨.writeError, ?_⟩
        simp only [compress_and_save, hE]
        rw [if_neg hw]
  cases wm with
  | none => exact hcs img
  | some applyWm =>
    cases hA : applyWm img with
    | error e =>
      refine Or.inl ⟨e, ?_⟩
      simp only [compress_and_save_with_watermark, hA]
    | ok processed =>
      simpa only [compress_and_save_with_watermark, hA] using hcs processed

/-- One PDF page-loop step adds exactly one unit to the counters, preserves
the write oracle, and appends exactly one non-final, non-error progress
update. -/
theorem pdfPageStep_spec (rf : Bitmap → ℕ → ℕ → FilterType → Bitmap)
    (wm : Watermark) (tkb : ℕ) (fmt : OutputFormat) (f : SrcFile)
    (total i : ℕ) (st : RunState) (img : Bitmap) :
    ((pdfPageStep rf wm tkb fmt f total i st img).processed +
        (pdfPageStep rf wm tkb fmt f total i st img).failed =
      st.processed + st.failed + 1) ∧
    ((pdfPageStep rf wm tkb fmt f total i st img).fs.writeOk = st.fs.writeOk) ∧
    (∃ u : ProgressUpdate,
      (pdfPageStep rf wm tkb fmt f total i st img).sent = st.sent ++ [u] ∧
      u.error_message = none ∧ u.is_complete = false) := by
  rcases compress_ww_cases rf wm img (pageName f fmt (i + 1)) tkb fmt st.fs with
    ⟨e, he⟩ | ⟨b, hb⟩
  · refine ⟨?_, ?_, ?_⟩
    · simp only [pdfPageStep, he, send]
      omega
    · simp only [pdfPageStep, he, send]
    · exact ⟨{ processed := st.processed, failed := st.failed + 1, total := total, current_file := f.path.render ++ " (第 " ++ toString (i + 1) ++ " 页)" }, by simp only [pdfPageStep, he, send], rfl, rfl⟩
  · refine ⟨?_, ?_, ?_⟩
    · simp only [pdfPageStep, hb, send]
      omega
    · simp only [pdfPageStep, hb, send]
    · exact ⟨{ processed := st.processed + 1, failed := st.failed, total := total, current_file := f.path.render ++ " (第 " ++ toString (i + 1) ++ " 页)" }, by simp only [pdfPageStep, hb, send], rfl, rfl⟩

/-- The PDF page loop adds exactly one counter unit per rendered image,
preserves the write oracle, and appends only non-final, non-error updates. -/
theorem processPdfPages_spec (rf : Bitmap → ℕ → ℕ → FilterType → Bitmap)
    (wm : Watermark) (tkb : ℕ) (fmt : OutputFormat) (f : SrcFile) (total : ℕ) :
    ∀ (images : List Bitmap) (i : ℕ) (st : RunState),
      ((processPdfPages rf wm tkb fmt f total images i st).processed +
          (processPdfPages rf wm tkb fmt f total images i st).failed =
        st.processed + st.failed + images.length) ∧
      ((processPdfPages rf wm tkb fmt f total images i st).fs.writeOk =
        st.fs.writeOk) ∧
      (∃ ex, (processPdfPages rf wm tkb fmt f total images i st).sent =
          st.sent ++ ex ∧
        ∀ u ∈ ex, u.error_message = none ∧ u.is_complete = false) := by
  intro images
  induction images with
  | nil =>
    intro i st
    refine ⟨?_, by rw [processPdfPages], ⟨[], ?_, by simp⟩⟩
    · rw [processPdfPages]
      rfl
    · rw [processPdfPages, List.append_nil]
  | cons img rest ih =>
    intro i st
    obtain ⟨hc1, hw1, u, hs1, hue, huc⟩ := pdfPageStep_spec rf wm tkb fmt f total i st img
    obtain ⟨hc2, hw2, ex, hs2, hex⟩ :=
      ih (i + 1) (pdfPageStep rf wm tkb fmt f total i st img)
    rw [processPdfPages]
    refine ⟨?_, ?_, ⟨[u] ++ ex, ?_, ?_⟩⟩
    · rw [hc2, hc1]
      simp [List.length_cons]
      omega
    · rw [hw2, hw1]
    · rw [hs2, hs1, List.append_assoc]
    · intro v hv
      rcases List.mem_append.mp hv with hv1 | hv2
      · rcases List.mem_singleton.mp hv1 with rfl
        exact ⟨hue, huc⟩
      · exact hex v hv2

/-- For a PDF file whose document loads, the unit count is the page count. -/
theorem unitCount_pdf (f : SrcFile) (pages : List (Option Bitmap))
    (hpdf : f.isPdf = true) (hl : f.pdfLoad = some pages) :
    unitCount f = pages.length := by
  simp [unitCount, hpdf, get_pdf_page_count, hl]

/-- For a non-PDF file the unit count is 1. -/
theorem unitCount_image (f : SrcFile) (hpdf : ¬ f.isPdf = true) :
    unitCount f = 1 := by
  simp [unitCount, hpdf]

/-- When every page renders, the rendered image list has one image per page. -/
theorem filterMap_id_length_all_some :
    ∀ (pages : List (Option Bitmap)), (∀ p ∈ pages, p ≠ none) →
      (pages.filterMap id).length = pages.length := by
  intro pages
  induction pages with
  | nil => intro _; rfl
  | cons p rest ih =>
    intro hall
    cases p with
    | none => exact absurd rfl (hall none (by simp))
    | some b =>
      have hrec := ih (fun q hq => hall q (by simp [hq]))
      simp [List.filterMap_cons, hrec]

/-- Per-file processing preserves the write oracle, appends only non-final,
non-error progress updates, and, provided every page of a loadable PDF
renders, adds exactly the file's unit count to the two counters combined. -/
theorem process_single_file_spec (rf : Bitmap → ℕ → ℕ → FilterType → Bitmap)
    (wm : Watermark) (tkb : ℕ) (fmt : OutputFormat) (total : ℕ) (f : SrcFile)
    (st : RunState) :
    ((process_single_file rf wm tkb fmt total st f).fs.writeOk = st.fs.writeOk) ∧
    (∃ ex, (process_single_file rf wm tkb fmt total st f).sent = st.sent ++ ex ∧
      ∀ u ∈ ex, u.error_message = none ∧ u.is_complete = false) ∧
    ((∀ pages, f.pdfLoad = some pages → ∀ p ∈ pages, p ≠ none) →
      (process_single_file rf wm tkb fmt total st f).processed +
          (process_single_file rf wm tkb fmt total st f).failed =
        st.processed + st.failed + unitCount f) := by
  by_cases hpdf : f.isPdf = true
  · cases hload : f.pdfLoad with
    | none =>
      have heq : process_single_file rf wm tkb fmt total st f =
          (⟨st.processed, st.failed + unitCount f, st.fs, st.sent⟩ : RunState) := by
        simp only [process_single_file, hpdf, if_true, process_pdf,
          convert_pdf_to_images, hload]
      rw [heq]
      refine ⟨rfl, ⟨[], by simp, by simp⟩, fun _ => ?_⟩
      show st.processed + (st.failed + unitCount f) =
        st.processed + st.failed + unitCount f
      omega
    | some pages =>
      by_cases hemp : (pages.filterMap id).isEmpty = true
      · have heq : process_single_file rf wm tkb fmt total st f =
            (⟨st.processed, st.failed + unitCount f, st.fs, st.sent⟩ : RunState) := by
          simp only [process_single_file, hpdf, if_true, process_pdf,
            convert_pdf_to_images, hload, hemp]
        rw [heq]
        refine ⟨rfl, ⟨[], by simp, by simp⟩, fun _ => ?_⟩
        show st.processed + (st.failed + unitCount f) =
          st.processed + st.failed + unitCount f
        omega
      · have heq : process_single_file rf wm tkb fmt total st f =
            processPdfPages rf wm tkb fmt f total (pages.filterMap id) 0 st := by
          simp [process_single_file, hpdf, process_pdf,
            convert_pdf_to_images, hload, hemp]
        obtain ⟨hc, hw, ex, hs, hex⟩ :=
          processPdfPages_spec rf wm tkb fmt f total (pages.filterMap id) 0 st
        rw [heq]
        refine ⟨hw, ⟨ex, hs, hex⟩, fun hall => ?_⟩
        rw [hc, filterMap_id_length_all_some pages (hall pages rfl),
          unitCount_pdf f pages hpdf hload]
  · cases hdec : f.decodeResult with
    | none =>
      have heq : process_single_file rf wm tkb fmt total st f =
          (⟨st.processed, st.failed + unitCount f, st.fs, st.sent⟩ : RunState) := by
        simp [process_single_file, hpdf, process_image, hdec]
      rw [heq]
      refine ⟨rfl, ⟨[], by simp, by simp⟩, fun _ => ?_⟩
      show st.processed + (st.failed + unitCount f) =
        st.processed + st.failed + unitCount f
      omega
    | some img =>
      rcases compress_ww_cases rf wm img (imageOutName f fmt) tkb fmt st.fs with
        ⟨e, he⟩ | ⟨b, hb⟩
      · have heq : process_single_file rf wm tkb fmt total st f =
            (⟨st.processed, st.failed + unitCount f, st.fs, st.sent⟩ : RunState) := by
          simp [process_single_file, hpdf, process_image, hdec, he]
        rw [heq]
        refine ⟨rfl, ⟨[], by simp, by simp⟩, fun _ => ?_⟩
        show st.processed + (st.failed + unitCount f) =
          st.processed + st.failed + unitCount f
        omega
      · have heq : process_single_file rf wm tkb fmt total st f =
            send (⟨st.processed + 1, st.failed, ⟨(imageOutName f fmt, b) :: st.fs.files, st.fs.writeOk⟩, st.sent⟩ : RunState) { processed := st.processed + 1, failed := st.failed, total := total, current_file := f.path.render } := by
          simp [process_single_file, hpdf, process_image, hdec, hb]
        rw [heq]
        refine ⟨rfl, ⟨[{ processed := st.processed + 1, failed := st.failed, total := total, current_file := f.path.render }], by simp [send], by simp⟩, fun _ => ?_⟩
        have h1 : unitCount f = 1 := unitCount_image f hpdf
        simp only [send, h1]
        omega

/-- Folding per-file processing over the enumerated files preserves the write
oracle, appends only non-final, non-error updates, and (when every loadable
PDF renders all its pages) adds exactly the pre-scan total to the combined
counters. -/
theorem foldl_process_spec (rf : Bitmap → ℕ → ℕ → FilterType → Bitmap)
    (wm : Watermark) (tkb : ℕ) (fmt : OutputFormat) (total : ℕ) :
    ∀ (files : List SrcFile) (st : RunState),
      ((files.foldl (process_single_file rf wm tkb fmt total) st).fs.writeOk =
        st.fs.writeOk) ∧
      (∃ ex, (files.foldl (process_single_file rf wm tkb fmt total) st).sent =
          st.sent ++ ex ∧
        ∀ u ∈ ex, u.error_message = none ∧ u.is_complete = false) ∧
      ((∀ f ∈ files, ∀ pages, f.pdfLoad = some pages → ∀ p ∈ pages, p ≠ none) →
        (files.foldl (process_single_file rf wm tkb fmt total) st).processed +
            (files.foldl (process_single_file rf wm tkb fmt total) st).failed =
          st.processed + st.failed + totalTasks files) := by
  intro files
  induction files with
  | nil =>
    intro st
    exact ⟨rfl, ⟨[], by simp, by simp⟩, fun _ => by simp [totalTasks]⟩
  | cons f rest ih =>
    intro st
    obtain ⟨hw1, ⟨ex1, hs1, hex1⟩, hc1⟩ := process_single_file_spec rf wm tkb fmt total f st
    obtain ⟨hw2, ⟨ex2, hs2, hex2⟩, hc2⟩ := ih (process_single_file rf wm tkb fmt total st f)
    rw [List.foldl_cons]
    refine ⟨by rw [hw2, hw1], ⟨ex1 ++ ex2, ?_, ?_⟩, fun hall => ?_⟩
    · rw [hs2, hs1, List.append_assoc]
    · intro v hv
      rcases List.mem_append.mp hv with hv1 | hv2
      · exact hex1 v hv1
      · exact hex2 v hv2
    · have htt : totalTasks (f :: rest) = unitCount f + totalTasks rest := by
        simp [totalTasks]
      rw [hc2 (fun g hg => hall g (by simp [hg])),
        hc1 (fun pages hp => hall f (by simp) pages hp), htt]
      omega

/-- When enumeration succeeds, `run_conversion` returns `Ok` and the
post-enumeration phase. -/
theorem run_conversion_ok (rf : Bitmap → ℕ → ℕ → FilterType → Bitmap)
    (wm : Watermark) (minput : ModeInput) (tkb : ℕ) (fmt : OutputFormat)
    (fs0 : FS) (files : List SrcFile)
    (henum : enumerate minput = .ok files) :
    run_conversion rf wm minput tkb fmt fs0 =
      (.ok (), runWithFiles rf wm tkb fmt fs0 files) := by
  unfold run_conversion
  rw [henum]

/-- When enumeration fails, `run_conversion` propagates the error with an
empty trace. -/
theorem run_conversion_err (rf : Bitmap → ℕ → ℕ → FilterType → Bitmap)
    (wm : Watermark) (minput : ModeInput) (tkb : ℕ) (fmt : OutputFormat)
    (fs0 : FS) (e : ConvError)
    (henum : enumerate minput = .error e) :
    run_conversion rf wm minput tkb fmt fs0 =
      (.error e, (⟨0, 0, fs0, []⟩ : RunState)) := by
  unfold run_conversion
  rw [henum]

/-- C2 counterexample: a single 2-page PDF whose second page fails to render
(and is silently skipped by `convert_pdf_to_images`) yields a final snapshot
with `is_complete = true`, `total = 2` from the pre-scan, but
`processed + failed = 1 + 0 ≠ 2`: the claimed equality fails on the code. -/
theorem c2_counterexample_skipped_page :
    (run_conversion rf0 none (ModeInput.singleFile pdfSkip) 1 .PngOriginal
        fsT).2.sent.getLast? =
      some { processed := 1, failed := 0, total := 2, is_complete := true } ∧
    (1 + 0 : ℕ) ≠ 2 := by
  constructor
  · decide
  · decide

/-- C2 amended: for every batch run whose enumeration succeeds and in which
every page of every loadable PDF actually renders (the code silently skips
unrenderable pages, which the counterexample exploits), the final snapshot
(the last one sent) has `is_complete = true` and satisfies
`processed + failed = total`, with `total` equal to the pre-scan sum of unit
counts (1 per image, page count per PDF, 1 when the page count is
unavailable); moreover for a nonempty enumeration the total is announced in
the second progress update, before any unit is processed. -/
theorem c2_amended_final_counts (rf : Bitmap → ℕ → ℕ → FilterType → Bitmap)
    (wm : Watermark) (minput : ModeInput) (tkb : ℕ) (fmt : OutputFormat)
    (fs0 : FS) (files : List SrcFile)
    (henum : enumerate minput = .ok files)
    (hall : ∀ f ∈ files, ∀ pages, f.pdfLoad = some pages → ∀ p ∈ pages, p ≠ none) :
    (∃ fin : ProgressUpdate,
      (run_conversion rf wm minput tkb fmt fs0).2.sent.getLast? = some fin ∧
      fin.is_complete = true ∧
      fin.processed + fin.failed = fin.total ∧
      fin.total = totalTasks files) ∧
    (files ≠ [] →
      (run_conversion rf wm minput tkb fmt fs0).2.sent[1]? =
        some { total := totalTasks files }) := by
  rw [run_conversion_ok rf wm minput tkb fmt fs0 files henum]
  by_cases hemp : files.isEmpty = true
  · have hf0 : files = [] := List.isEmpty_iff.mp hemp
    subst hf0
    refine ⟨⟨{ is_complete := true }, ?_, rfl, rfl, rfl⟩, fun hne => absurd rfl hne⟩
    simp [runWithFiles, send]
  · by_cases htot : totalTasks files = 0
    · have hrw : runWithFiles rf wm tkb fmt fs0 files =
          send (send (send ⟨0, 0, fs0, []⟩ { current_file := "正在计算总任务数..." }) { total := 0 }) { is_complete := true, total := 0 } := by
        simp [runWithFiles, hemp, htot]
      rw [hrw]
      constructor
      · refine ⟨{ is_complete := true, total := 0 }, ?_, rfl, rfl, htot.symm⟩
        simp [send]
      · intro _
        rw [htot]
        simp [send]
    · set st2 : RunState := send (send ⟨0, 0, fs0, []⟩ { current_file := "正在计算总任务数..." }) { total := totalTasks files } with hst2
      set st3 : RunState := files.foldl (process_single_file rf wm tkb fmt (totalTasks files)) st2 with hst3
      obtain ⟨hw, ⟨ex, hs, hex⟩, hc⟩ :=
        foldl_process_spec rf wm tkb fmt (totalTasks files) files st2
      have hcc := hc hall
      rw [← hst3] at hs hcc
      have hrw : runWithFiles rf wm tkb fmt fs0 files =
          send st3 { processed := st3.processed, failed := st3.failed, total := totalTasks files, is_complete := true } := by
        rw [hst3, hst2]
        simp [runWithFiles, hemp, htot]
      rw [hrw]
      constructor
      · refine ⟨{ processed := st3.processed, failed := st3.failed, total := totalTasks files, is_complete := true }, ?_, rfl, ?_, rfl⟩
        · simp [send, List.getLast?_concat]
        · have h2p : st2.processed = 0 := rfl
          have h2f : st2.failed = 0 := rfl
          show st3.processed + st3.failed = totalTasks files
          omega
      · intro _
        show (st3.sent ++ [{ processed := st3.processed, failed := st3.failed, total := totalTasks files, is_complete := true }])[1]? = some { total := totalTasks files }
        rw [hs]
        have hst2sent : st2.sent =
            [{ current_file := "正在计算总任务数..." }, { total := totalTasks files }] := rfl
        rw [hst2sent, List.append_assoc]
        rw [List.getElem?_append_left (by simp)]
        rfl

/-- C2 amended witness: a single ordinary image file run satisfies the
hypotheses, and the amended conclusion holds there. -/
theorem c2_amended_final_counts_witness :
    enumerate (ModeInput.singleFile imgFileA) = .ok [imgFileA] ∧
    (∃ fin : ProgressUpdate,
      (run_conversion rf0 none (ModeInput.singleFile imgFileA) 1 .PngOriginal
          fsT).2.sent.getLast? = some fin ∧
      fin.is_complete = true ∧
      fin.processed + fin.failed = fin.total ∧
      fin.total = totalTasks [imgFileA]) := by
  have hall : ∀ f ∈ [imgFileA], ∀ pages, f.pdfLoad = some pages →
      ∀ p ∈ pages, p ≠ none := by
    intro f hf pages hp
    simp only [List.mem_singleton] at hf
    subst hf
    simp [imgFileA] at hp
  exact ⟨rfl, (c2_amended_final_counts rf0 none (ModeInput.singleFile imgFileA) 1
    .PngOriginal fsT [imgFileA] rfl hall).1⟩

/-- Every progress update sent by the post-enumeration phase carries no error
message (per-unit failures only bump the `failed` counter). -/
theorem runWithFiles_error_none (rf : Bitmap → ℕ → ℕ → FilterType → Bitmap)
    (wm : Watermark) (tkb : ℕ) (fmt : OutputFormat) (fs0 : FS)
    (files : List SrcFile) :
    ∀ u ∈ (runWithFiles rf wm tkb fmt fs0 files).sent, u.error_message = none := by
  by_cases hemp : files.isEmpty = true
  · have hf0 : files = [] := List.isEmpty_iff.mp hemp
    subst hf0
    intro u hu
    simp [runWithFiles, send] at hu
    subst hu
    rfl
  · by_cases htot : totalTasks files = 0
    · have hrw : runWithFiles rf wm tkb fmt fs0 files =
          send (send (send ⟨0, 0, fs0, []⟩ { current_file := "正在计算总任务数..." }) { total := 0 }) { is_complete := true, total := 0 } := by
        simp [runWithFiles, hemp, htot]
      rw [hrw]
      intro u hu
      simp [send] at hu
      rcases hu with h | h | h <;> subst h <;> rfl
    · set st2 : RunState := send (send ⟨0, 0, fs0, []⟩ { current_file := "正在计算总任务数..." }) { total := totalTasks files } with hst2
      set st3 : RunState := files.foldl (process_single_file rf wm tkb fmt (totalTasks files)) st2 with hst3
      obtain ⟨hw, ⟨ex, hs, hex⟩, _⟩ :=
        foldl_process_spec rf wm tkb fmt (totalTasks files) files st2
      rw [← hst3] at hs
      have hrw : runWithFiles rf wm tkb fmt fs0 files =
          send st3 { processed := st3.processed, failed := st3.failed, total := totalTasks files, is_complete := true } := by
        rw [hst3, hst2]
        simp [runWithFiles, hemp, htot]
      rw [hrw]
      intro u hu
      have hst2sent : st2.sent =
          [{ current_file := "正在计算总任务数..." }, { total := totalTasks files }] := rfl
      have hu2 : u ∈ (st2.sent ++ ex) ++
          [({ processed := st3.processed, failed := st3.failed, total := totalTasks files, is_complete := true } : ProgressUpdate)] := by
        rw [← hs]
        exact hu
      rw [hst2sent] at hu2
      simp only [List.mem_append] at hu2
      rcases hu2 with (hu3 | hu3) | hu3
      · simp only [List.mem_cons, List.not_mem_nil, or_false] at hu3
        rcases hu3 with h | h <;> rw [h]
      · exact (hex u hu3).1
      · simp only [List.mem_singleton] at hu3
        rw [hu3]

/-- C6 counterexample: a folder that enumerates to zero work units completes
with `is_complete = true` but with NO error message — the whole trace is the
single default-complete snapshot, so the claimed batch-level hard failure
(non-empty `error_message`) does not happen. -/
theorem c6_counterexample_empty_folder_no_error_message :
    (run_conversion rf0 none (ModeInput.folder (some [])) 1 .PngOriginal
        fsT).2.sent = [{ is_complete := true }] ∧
    ({ is_complete := true } : ProgressUpdate).error_message = none := by
  exact ⟨by decide, rfl⟩

/-- C6 amended: only enumeration failures (unreadable directory) escalate to
a final snapshot with `is_complete = true` and a non-empty `error_message`;
a run with zero work units completes with `is_complete = true` and NO error
message; and when enumeration succeeds, no update sent by the run (including
those reflecting per-unit failures) ever carries an error message, so
per-unit failures never set `error_message` and never abort the batch. -/
theorem c6_amended_hard_failure_signaling (rf : Bitmap → ℕ → ℕ → FilterType → Bitmap)
    (wm : Watermark) (minput : ModeInput) (tkb : ℕ) (fmt : OutputFormat)
    (fs0 : FS) :
    (∀ e, enumerate minput = .error e →
      (process_files rf wm minput tkb fmt fs0).sent.getLast? =
        some { is_complete := true, error_message := some (convErrMsg e) }) ∧
    (enumerate minput = .ok [] →
      (process_files rf wm minput tkb fmt fs0).sent = [{ is_complete := true }]) ∧
    (∀ files, enumerate minput = .ok files →
      ∀ u ∈ (run_conversion rf wm minput tkb fmt fs0).2.sent,
        u.error_message = none) := by
  refine ⟨?_, ?_, ?_⟩
  · intro e he
    unfold process_files
    rw [run_conversion_err rf wm minput tkb fmt fs0 e he]
    simp [send]
  · intro he
    unfold process_files
    rw [run_conversion_ok rf wm minput tkb fmt fs0 [] he]
    simp [runWithFiles, send]
  · intro files he u hu
    rw [run_conversion_ok rf wm minput tkb fmt fs0 files he] at hu
    exact runWithFiles_error_none rf wm tkb fmt fs0 files u hu

/-- C6 amended witness: a non-directory folder input makes enumeration fail,
and the final snapshot carries the error message. -/
theorem c6_amended_hard_failure_signaling_witness :
    enumerate (ModeInput.folder none) = .error .notADirectory ∧
    (process_files rf0 none (ModeInput.folder none) 1 .PngOriginal fsT).sent.getLast? =
      some { is_complete := true, error_message := some (convErrMsg .notADirectory) } :=
  ⟨rfl, (c6_amended_hard_failure_signaling rf0 none (ModeInput.folder none) 1
    .PngOriginal fsT).1 .notADirectory rfl⟩

/-- C5 counterexample: on a walk listing `b.png, a.png, notes.txt` the
enumeration returns the files in walk order — unsorted (`b.png` precedes
`a.png`) and including a file with the unsupported extension `txt` — so the
claimed "filtered to supported extensions and sorted by filename" behaviour
does not hold on the code. -/
theorem c5_counterexample_unsorted_unfiltered :
    get_files_in_directory (some [⟨filePngB, true⟩, ⟨filePngA, true⟩, ⟨fileTxt, true⟩]) =
      .ok [filePngB, filePngA, fileTxt] ∧
    ([filePngB, filePngA, fileTxt].map fun f => f.path.render) =
      ["b.png", "a.png", "notes.txt"] ∧
    ¬ (["b.png", "a.png", "notes.txt"].Sorted (· ≤ ·)) ∧
    fileTxt.path.ext = some "txt" := by
  refine ⟨rfl, rfl, ?_, rfl⟩
  intro hsort
  have hle : ("b.png" : String) ≤ "a.png" :=
    (List.sorted_cons.mp hsort).1 "a.png" (by simp)
  refine absurd hle (not_le.mpr ?_)
  rw [String.lt_iff_toList_lt]
  decide

/-- C5 amended: folder enumeration returns exactly the file-type entries of
the recursive directory walk, in walk order — with no extension filtering and
no sorting (ordering across runs is only as deterministic as the walk order
itself); a non-directory input is an enumeration error; and every file-type
entry appears in the result whatever its extension. -/
theorem c5_amended_enumeration_walk_order :
    (∀ entries : List DirEntry,
      get_files_in_directory (some entries) =
        .ok ((entries.filter fun e => e.isFile).map fun e => e.file)) ∧
    get_files_in_directory none = .error .notADirectory ∧
    (∀ (entries : List DirEntry) (e : DirEntry), e ∈ entries → e.isFile = true →
      ∀ l, get_files_in_directory (some entries) = .ok l → e.file ∈ l) := by
  refine ⟨fun entries => rfl, rfl, ?_⟩
  intro entries e he hf l hl
  have : l = (entries.filter fun e => e.isFile).map fun e => e.file := by
    injection hl with h
    exact h.symm
  subst this
  exact List.mem_map_of_mem _ (List.mem_filter.mpr ⟨he, hf⟩)

/-- C5 amended witness: the txt file in the concrete listing is returned by
the enumeration. -/
theorem c5_amended_enumeration_walk_order_witness :
    (⟨fileTxt, true⟩ : DirEntry) ∈ [(⟨fileTxt, true⟩ : DirEntry)] ∧
    fileTxt ∈ [fileTxt] :=
  ⟨by simp, c5_amended_enumeration_walk_order.2.2 [⟨fileTxt, true⟩] ⟨fileTxt, true⟩
    (by simp) rfl [fileTxt] rfl⟩

/-- When every page compress-and-save succeeds (success depends on the file
system only through the write oracle, which the loop preserves), the page
loop writes exactly the names `"<stem>_page_<i+j+1>.<ext>"` for the rendered
images, in ascending page order, on top of the existing files. -/
theorem processPdfPages_files (rf : Bitmap → ℕ → ℕ → FilterType → Bitmap)
    (wm : Watermark) (tkb : ℕ) (fmt : OutputFormat) (f : SrcFile) (total : ℕ) :
    ∀ (images : List Bitmap) (i : ℕ) (st : RunState),
      (∀ j, j < images.length → ∀ fls : List (String × List ℕ),
        (compress_and_save_with_watermark rf wm (images.getD j bmpA)
          (pageName f fmt (i + j + 1)) tkb fmt ⟨fls, st.fs.writeOk⟩).1 = .ok ()) →
      (processPdfPages rf wm tkb fmt f total images i st).fs.files.map Prod.fst =
        (((List.range images.length).map fun j => pageName f fmt (i + j + 1)).reverse)
          ++ st.fs.files.map Prod.fst := by
  intro images
  induction images with
  | nil =>
    intro i st _
    rw [processPdfPages]
    simp
  | cons img rest ih =>
    intro i st hok
    rw [processPdfPages]
    have h0 : (compress_and_save_with_watermark rf wm img
        (pageName f fmt (i + 0 + 1)) tkb fmt ⟨st.fs.files, st.fs.writeOk⟩).1 =
        .ok () := hok 0 (by simp) st.fs.files
    have h0' : (compress_and_save_with_watermark rf wm img
        (pageName f fmt (i + 1)) tkb fmt st.fs).1 = .ok () := h0
    rcases compress_ww_cases rf wm img (pageName f fmt (i + 1)) tkb fmt st.fs with
      ⟨e, he⟩ | ⟨b, hb⟩
    · rw [he] at h0'
      exact absurd h0' (by simp)
    · have hfiles : (pdfPageStep rf wm tkb fmt f total i st img).fs.files =
          (pageName f fmt (i + 1), b) :: st.fs.files := by
        simp only [pdfPageStep, hb, send]
      have hwok : (pdfPageStep rf wm tkb fmt f total i st img).fs.writeOk =
          st.fs.writeOk := by
        simp only [pdfPageStep, hb, send]
      have hok' : ∀ j, j < rest.length → ∀ fls : List (String × List ℕ),
          (compress_and_save_with_watermark rf wm (rest.getD j bmpA)
            (pageName f fmt (i + 1 + j + 1)) tkb fmt
            ⟨fls, (pdfPageStep rf wm tkb fmt f total i st img).fs.writeOk⟩).1 =
            .ok () := by
        intro j hj fls
        have harg : i + 1 + j + 1 = i + (j + 1) + 1 := by omega
        rw [hwok, harg]
        exact hok (j + 1) (by simpa using Nat.succ_lt_succ hj) fls
      have hrec := ih (i + 1) (pdfPageStep rf wm tkb fmt f total i st img) hok'
      rw [hrec, hfiles, List.map_cons]
      rw [List.length_cons, List.range_succ_eq_map, List.map_cons, List.map_map,
        List.reverse_cons, List.append_assoc]
      have hmap : ((fun j => pageName f fmt (i + j + 1)) ∘ Nat.succ) =
          (fun j => pageName f fmt (i + 1 + j + 1)) := by
        funext j
        show pageName f fmt (i + (j + 1) + 1) = pageName f fmt (i + 1 + j + 1)
        congr 1
        omega
      rw [hmap]
      congr 1

/-- C7 counterexample: two distinct 1-page PDFs that share the stem "doc"
(as happens for `dir1/doc.pdf` and `dir2/doc.pdf` under the recursive walk)
are both written as `doc_page_1.png` directly in the single output directory
— no per-PDF subfolder exists, and equal page numbers from different PDFs
collide (the second write shadows the first). -/
theorem c7_counterexample_stem_collision :
    (run_conversion rf0 none (ModeInput.folder (some [⟨pdfD1, true⟩, ⟨pdfD2, true⟩]))
        1 .PngOriginal fsT).2.fs.files =
      [("doc_page_1.png", [2]), ("doc_page_1.png", [1])] ∧
    ¬ ((run_conversion rf0 none (ModeInput.folder (some [⟨pdfD1, true⟩, ⟨pdfD2, true⟩]))
        1 .PngOriginal fsT).2.fs.files.map Prod.fst).Nodup ∧
    (run_conversion rf0 none (ModeInput.folder (some [⟨pdfD1, true⟩, ⟨pdfD2, true⟩]))
        1 .PngOriginal fsT).2.processed = 2 := by
  refine ⟨by decide, by decide, by decide⟩

/-- C7 amended: for a PDF whose document loads and whose rendered pages all
compress and write successfully, `process_pdf` succeeds and the output names
written (on top of the existing files) are exactly
`"<stem>_page_<k>.<ext>"` for `k = 1 .. L` in ascending order, where `L` is
the number of successfully RENDERED pages (equal to the page number only when
no page was skipped), `<ext>` is the format's canonical extension — and all
of them go directly into the single output directory (no per-PDF subfolder,
as the counterexample shows by colliding two equal-stem PDFs). -/
theorem c7_amended_page_naming (rf : Bitmap → ℕ → ℕ → FilterType → Bitmap)
    (wm : Watermark) (tkb : ℕ) (fmt : OutputFormat) (f : SrcFile) (total : ℕ)
    (st : RunState) (pages : List (Option Bitmap))
    (hload : f.pdfLoad = some pages)
    (hne : ¬ (pages.filterMap id).isEmpty = true)
    (hok : ∀ j, j < (pages.filterMap id).length → ∀ fls : List (String × List ℕ),
      (compress_and_save_with_watermark rf wm ((pages.filterMap id).getD j bmpA)
        (pageName f fmt (j + 1)) tkb fmt ⟨fls, st.fs.writeOk⟩).1 = .ok ()) :
    (process_pdf rf wm f tkb fmt total st).1 = .ok () ∧
    ((process_pdf rf wm f tkb fmt total st).2.fs.files.map Prod.fst =
      (((List.range (pages.filterMap id).length).map
        fun j => pageName f fmt (j + 1)).reverse) ++ st.fs.files.map Prod.fst) ∧
    (∀ k : ℕ, pageName f fmt k =
      f.path.stem ++ "_page_" ++ toString k ++ "." ++ fmt.extension) ∧
    (OutputFormat.extension .Jpeg = "jpg" ∧
      OutputFormat.extension .PngCompressed = "png" ∧
      OutputFormat.extension .PngOriginal = "png" ∧
      OutputFormat.extension .WebPLossy = "webp" ∧
      OutputFormat.extension .WebPLossless = "webp") := by
  have heq : process_pdf rf wm f tkb fmt total st =
      (.ok (), processPdfPages rf wm tkb fmt f total (pages.filterMap id) 0 st) := by
    simp [process_pdf, convert_pdf_to_images, hload, hne]
  have hok0 : ∀ j, j < (pages.filterMap id).length → ∀ fls : List (String × List ℕ),
      (compress_and_save_with_watermark rf wm ((pages.filterMap id).getD j bmpA)
        (pageName f fmt (0 + j + 1)) tkb fmt ⟨fls, st.fs.writeOk⟩).1 = .ok () := by
    intro j hj fls
    have harg : 0 + j + 1 = j + 1 := by omega
    rw [harg]
    exact hok j hj fls
  have hfl := processPdfPages_files rf wm tkb fmt f total (pages.filterMap id) 0 st hok0
  have hmap : (fun j => pageName f fmt (0 + j + 1)) =
      (fun j => pageName f fmt (j + 1)) := by
    funext j
    congr 1
    omega
  rw [hmap] at hfl
  rw [heq]
  exact ⟨rfl, hfl, fun k => rfl, rfl, rfl, rfl, rfl, rfl⟩

/-- C7 amended witness: a concrete 1-page PDF produces exactly the output
name `doc_page_1.png`. -/
theorem c7_amended_page_naming_witness :
    pdfD1.pdfLoad = some [some pdfBmp1] ∧
    (process_pdf rf0 none pdfD1 1 .PngOriginal 1
        (⟨0, 0, fsT, []⟩ : RunState)).2.fs.files.map Prod.fst = ["doc_page_1.png"] := by
  have hne : ¬ (([some pdfBmp1] : List (Option Bitmap)).filterMap id).isEmpty = true := by
    simp
  have hok : ∀ j, j < (([some pdfBmp1] : List (Option Bitmap)).filterMap id).length →
      ∀ fls : List (String × List ℕ),
      (compress_and_save_with_watermark rf0 none
        ((([some pdfBmp1] : List (Option Bitmap)).filterMap id).getD j bmpA)
        (pageName pdfD1 .PngOriginal (j + 1)) 1 .PngOriginal
        ⟨fls, (⟨0, 0, fsT, []⟩ : RunState).fs.writeOk⟩).1 = .ok () := by
    intro j hj fls
    have hj1 : j < 1 := hj
    interval_cases j
    rfl
  have h := c7_amended_page_naming rf0 none 1 .PngOriginal pdfD1 1
    (⟨0, 0, fsT, []⟩ : RunState) [some pdfBmp1] rfl hne hok
  refine ⟨rfl, ?_⟩
  rw [h.2.1]
  rfl

/-- C1 witness: the characterization instantiated at a concrete bitmap and
target. -/
theorem c1_jpeg_adaptive_quality_search_witness :
    ∃ q0 k : ℕ,
      q0 = (if (1000 : ℕ) < 50000 then 40
        else if (1000 : ℕ) < 200000 then 60 else 80) ∧
      turbo_encode_jpeg_adaptive bmpA 1000 = bmpA.jpegEnc (jpegDecay^[k] q0) ∧
      ((bmpA.jpegEnc (jpegDecay^[k] q0)).length ≤ 1000 ∨ jpegDecay^[k] q0 ≤ 10) ∧
      ∀ j, j < k →
        1000 < (bmpA.jpegEnc (jpegDecay^[j] q0)).length ∧ 10 < jpegDecay^[j] q0 :=
  c1_jpeg_adaptive_quality_search bmpA 1000

/-- C8 amended witness: the characterization instantiated at a concrete
bitmap, target and preference. -/
theorem c8_amended_webp_smart_witness :
    ∃ q0 : ℚ,
      q0 = (if (60000 : ℕ) < 50000 then 50
        else if (60000 : ℕ) < 200000 then 75 else 85) ∧
      (encode_webp_smart bmpA 60000 false =
        if (false = true ∨ bmpA.width * bmpA.height % 2 ^ 32 < 500000) ∧
            ((bmpA.webpLosslessEnc.length : ℚ) ≤ 6 / 5 * (60000 : ℕ)) then
          bmpA.webpLosslessEnc
        else encode_webp_lossy bmpA q0 (some 60000)) ∧
      (∃ k : ℕ,
        encode_webp_lossy bmpA q0 (some 60000) = bmpA.webpEnc (webpDecay^[k] q0) ∧
        ((bmpA.webpEnc (webpDecay^[k] q0)).length ≤ 60000 ∨ webpDecay^[k] q0 ≤ 10) ∧
        ∀ j, j < k →
          (60000 : ℕ) < (bmpA.webpEnc (webpDecay^[j] q0)).length ∧
            (10 : ℚ) < webpDecay^[j] q0) :=
  c8_amended_webp_smart bmpA 60000 false
